import Mathlib

/-!
# Verification of the deterlab test runner (`main.go`)

A shallow embedding of the experiment driver: the test-matrix generators
(`DepthTest`, `ScaleTest`), the single attempt `RunTest` and the matrix loop
`RunTests`, followed by theorems about them.

Conventions of the embedding

* Go `int` is the 64-bit two's complement integer; it is an `Int` here and
  every arithmetic result of the source is passed through `wrapInt`.
* A Go `for` loop without a static bound takes a fuel argument and answers
  `none` when the fuel is used up; "the call terminates" means that some fuel
  gives `some` result.
* The package-level variables read by the code (`machines`, `bf`, `hpn`,
  `loggers`, `user`, `host`, `debug`, `DefaultRounds`) are the record `Globals`.
* Everything the operating system decides (does `cmd.Start` fail, which branch
  of the `select` fires, what `Monitor` returns, does a file operation fail) is
  the record `Env`; the code is a function of it.
* `log.Println` output is not part of the model; `log.Fatal` is: it ends the
  process.
-/

namespace Deter

/-! ## Machine integers -/

/-- Largest value of a Go `int` on a 64-bit platform. -/
def maxInt : Int := 2 ^ 63 - 1

/-- Smallest value of a Go `int` on a 64-bit platform. -/
def minInt : Int := -(2 ^ 63)

/-- Two's complement wrap-around of an integer result to 64 bits. -/
def wrapInt (x : Int) : Int := (x + 2 ^ 63) % 2 ^ 64 - 2 ^ 63

/-! ## Test configurations -/

/-- The struct `T` of the source: one test configuration. -/
structure T where
  nmachs : Int
  hpn : Int
  bf : Int
  rate : Int
  rounds : Int
  failures : Int
  rFail : Int
  fFail : Int
  testConnect : Bool
  app : String
deriving DecidableEq, Repr

/-- The package-level variables the code reads. -/
structure Globals where
  user : String
  host : String
  debug : String
  machines : Int
  loggers : Int
  bf : Int
  hpn : Int
  DefaultRounds : Int
deriving DecidableEq, Repr

/-- The values the package-level variables are initialised with. -/
def Globals.initial : Globals where
  user := "-user=ineiti"
  host := "-host=users.deterlab.net"
  debug := "-debug=true"
  machines := 3
  loggers := 3
  bf := 2
  hpn := 1
  DefaultRounds := 1

/-! ## Test matrix generators -/

/-- The composite literal `T{machines, hpn, bf, 10, DefaultRounds, 0, 0, 0, false, "stamp"}`
that both sweeps append. -/
def sweepT (g : Globals) (hpn bf : Int) : T :=
  ⟨g.machines, hpn, bf, 10, g.DefaultRounds, 0, 0, 0, false, "stamp"⟩

/-- The loop `for bf := low; bf <= high; bf += step { ts = append(ts, T{...}) }` of
`DepthTest`, started in the state `(bf, ts)`. -/
def DepthTestLoop (g : Globals) (hpn high step : Int) : Nat → Int → List T → Option (List T)
  | 0, _, _ => none
  | fuel + 1, bf, ts =>
    if bf ≤ high then
      DepthTestLoop g hpn high step fuel (wrapInt (bf + step)) (ts ++ [sweepT g hpn bf])
    else some ts

/-- The function `DepthTest(hpn, low, high, step)`. -/
def DepthTest (g : Globals) (fuel : Nat) (hpn low high step : Int) : Option (List T) :=
  DepthTestLoop g hpn high step fuel low []

/-- The loop `for hpn := low; hpn <= high; hpn *= mult { ts = append(ts, T{...}) }` of
`ScaleTest`, started in the state `(hpn, ts)`. -/
def ScaleTestLoop (g : Globals) (bf high mult : Int) : Nat → Int → List T → Option (List T)
  | 0, _, _ => none
  | fuel + 1, hpn, ts =>
    if hpn ≤ high then
      ScaleTestLoop g bf high mult fuel (wrapInt (hpn * mult)) (ts ++ [sweepT g hpn bf])
    else some ts

/-- The function `ScaleTest(bf, low, high, mult)`. -/
def ScaleTest (g : Globals) (fuel : Nat) (bf low high mult : Int) : Option (List T) :=
  ScaleTestLoop g bf high mult fuel low []

/-! ## Measurements -/

/-- A Go `float64` by its IEEE 754 class: not-a-number, an infinity with its sign, or a
finite value (a rational; both zeros are `fin 0`).  The source only compares, negates
and classifies floats, and these operations are exact. -/
inductive F64
  | nan
  | inf (negative : Bool)
  | fin (q : ℚ)
deriving DecidableEq

/-- The function `math.Abs`. -/
def F64.abs : F64 → F64
  | .nan => .nan
  | .inf _ => .inf false
  | .fin q => .fin |q|

/-- The Go operator `<` on `float64`: false as soon as one side is not-a-number. -/
def F64.lt : F64 → F64 → Bool
  | .fin a, .fin b => decide (a < b)
  | .inf true, .fin _ => true
  | .fin _, .inf false => true
  | .inf true, .inf false => true
  | _, _ => false

/-- The function `math.IsNaN`. -/
def F64.isNaN : F64 → Bool
  | .nan => true
  | _ => false

/-- The function `math.IsInf(f, sign)`: `sign > 0` asks for plus infinity, `sign < 0` for
minus infinity, `sign == 0` for either. -/
def F64.isInf (f : F64) (sign : Int) : Bool :=
  match f with
  | .inf negative => (decide (0 ≤ sign) && !negative) || (decide (sign ≤ 0) && negative)
  | _ => false

/-- The constant `0.0000001` of `isZero` as Go evaluates it: the `float64` nearest to
`1e-7`, which is `0x1.ad7f29abcaf48p-24 = 7555786372591432 / 2^76`. -/
def epsilon : ℚ := mkRat 7555786372591432 (2 ^ 76)

/-- The function `isZero(f) = math.Abs(f) < 0.0000001`. -/
def isZero (f : F64) : Bool := F64.lt (F64.abs f) (.fin epsilon)

/-- Modelled from the spec: the struct `RunStats` is declared in another file of the
package; `RunTest` reads its fields `MinTime`, `MaxTime`, `AvgTime` and `Rate`, and the
spec adds the per-client sequence of raw latencies. -/
structure RunStats where
  MinTime : F64
  MaxTime : F64
  AvgTime : F64
  Rate : F64
  Times : List F64
deriving DecidableEq

/-- The zero value of `var rs RunStats`. -/
def RunStats.zero : RunStats := ⟨.fin 0, .fin 0, .fin 0, .fin 0, []⟩

/-- Modelled from the spec: the methods `CSVHeader`, `CSV`, `TimesCSV` of `RunStats` and the
function `RunStatsAvg` live in another file of the package; they are parameters. -/
structure StatsLib where
  CSVHeader : RunStats → String
  CSV : RunStats → String
  TimesCSV : RunStats → String
  RunStatsAvg : List RunStats → RunStats

/-! ## The environment -/

/-- What happens to one attempt, as far as `RunTest` can see. -/
inductive AttemptEvent
  /-- The call `cmd.Start()` returns an error. -/
  | startFails
  /-- The goroutine gets `rs` from `Monitor`, kills the process and signals `done`
  before the five minute timer fires: the `select` takes `case <-done`. -/
  | monitorFirst (rs : RunStats)
  /-- The timer fires while the goroutine is still blocked in `Monitor`: the `select`
  takes `case <-time.After(5 * time.Minute)`. -/
  | deadlineFirst
deriving DecidableEq

/-- The file operations of `RunTests` that can fail. -/
inductive FileOp
  | openReport
  | writeHeader
  | syncHeader
  | writeRow (i : Nat)
  | syncRow (i : Nat)
  | openLatency (i : Nat)
  | writeLatency (i : Nat)
  | syncLatency (i : Nat)
deriving DecidableEq

/-- The environment of a run: the event of attempt `r` for position `i`, and which
file operations fail. -/
structure Env where
  attempt : Nat → Nat → AttemptEvent
  fileOpFails : FileOp → Bool

/-! ## Effects -/

/-- The error values `RunTest` returns. -/
inductive RunErr
  /-- The value `errors.New(fmt.Sprintf("unable to get good data: %+v", rs))`. -/
  | unableToGetGoodData (rs : RunStats)
  /-- The value `errors.New("timed out")`. -/
  | timedOut
deriving DecidableEq

/-- What one `Write` call puts into a file. -/
inductive Written
  /-- The bytes of `rs[0].CSVHeader()`. -/
  | header (bytes : String)
  /-- The bytes of `rs[i].CSV()`. -/
  | row (i : Nat) (bytes : String)
  /-- The bytes of `rs[i].TimesCSV()`. -/
  | times (i : Nat) (bytes : String)
deriving DecidableEq

/-- The observable steps of a run, in the order the code performs them. -/
inductive Effect
  /-- The call `cmd.Start()` succeeded for the argument vector. -/
  | start (args : List String)
  /-- The call `cmd.Start()` failed for the argument vector. -/
  | startFailed (args : List String)
  /-- The call `time.Sleep(seconds)`. -/
  | sleep (seconds : Nat)
  /-- The goroutine calls `Monitor(bf)`. -/
  | monitorCall (bf : Int)
  /-- The call of `Monitor` returns. -/
  | monitorReturn (rs : RunStats)
  /-- The call `cmd.Process.Kill()`. -/
  | kill
  /-- The five minute timer fires. -/
  | deadline
  /-- The loop of `RunTests` calls `RunTest(t)` in iteration `r` for position `i`. -/
  | callRunTest (i r : Nat) (t : T)
  /-- That call returns `(rs, err)`. -/
  | returnRunTest (i r : Nat) (rs : RunStats) (err : Option RunErr)
  /-- The call `cmd.Run()` of the clean-up command. -/
  | cleanup (args : List String)
  /-- The call `os.OpenFile(path, O_CREATE|O_RDWR|O_TRUNC, 0660)` succeeded. -/
  | openTrunc (path : String)
  /-- The call `Write` on the file opened at `path` succeeded. -/
  | write (path : String) (w : Written)
  /-- The call `Sync` on the file opened at `path` succeeded. -/
  | sync (path : String)
  /-- The call `Close` on the file opened at `path`. -/
  | close (path : String)
deriving DecidableEq

/-! ## One attempt: `RunTest` -/

/-- The argument vector `cmd.Args` that `RunTest` builds with `exec.Command`. -/
def RunTestArgs (g : Globals) (t : T) : List String :=
  ["./deploy2deter",
   "-nmachs=" ++ toString t.nmachs,
   "-hpn=" ++ toString t.hpn,
   "-nmsgs=" ++ toString (-1 : Int),
   "-bf=" ++ toString t.bf,
   "-rate=" ++ toString t.rate,
   "-rounds=" ++ toString t.rounds,
   g.debug,
   "-failures=" ++ toString t.failures,
   "-rfail=" ++ toString t.rFail,
   "-ffail=" ++ toString t.fFail,
   "-test_connect=" ++ toString t.testConnect,
   "-app=" ++ t.app,
   g.user,
   g.host,
   "-nloggers=" ++ toString g.loggers]

/-- How a call of `RunTest` ends. -/
inductive RunTestOutcome
  /-- The statement `return rs, err`. -/
  | returned (rs : RunStats) (err : Option RunErr)
  /-- The call `log.Fatal(err)`: the process exits, `RunTest` does not return. -/
  | exited (msg : String)
deriving DecidableEq

/-- The effects of a call of `RunTest` and how it ends. -/
structure RunTestResult where
  effects : List Effect
  outcome : RunTestOutcome

/-- The condition of the `if` in `case <-done`. -/
def badData (rs : RunStats) : Bool :=
  isZero rs.MinTime || isZero rs.MaxTime || isZero rs.AvgTime ||
    F64.isNaN rs.Rate || F64.isInf rs.Rate 0

/-- The function `RunTest(t)`, by the event the environment chooses.  The statement
`return rs, nil` that follows `log.Fatal(err)` is never reached. -/
def RunTest (g : Globals) (t : T) : AttemptEvent → RunTestResult
  | .startFails =>
    ⟨[.startFailed (RunTestArgs g t)], .exited "cmd.Start"⟩
  | .monitorFirst rs =>
    ⟨[.start (RunTestArgs g t), .sleep 30, .monitorCall t.bf, .monitorReturn rs, .kill],
     .returned rs (if badData rs then some (.unableToGetGoodData rs) else none)⟩
  | .deadlineFirst =>
    ⟨[.start (RunTestArgs g t), .sleep 30, .monitorCall t.bf, .deadline],
     .returned RunStats.zero (some .timedOut)⟩

/-! ## The matrix loop: `RunTests` -/

/-- How a piece of code ends. -/
inductive Status
  /-- It ran to its end. -/
  | done
  /-- The call `log.Fatal` ended the process. -/
  | fatal (msg : String)
  /-- A run-time panic ended the process. -/
  | panicked (msg : String)
deriving DecidableEq

/-- The effects of a piece of code and how it ends. -/
structure Run where
  trace : List Effect
  status : Status

/-- Sequential composition: `k` runs only when `a` ran to its end. -/
def Run.andThen (a k : Run) : Run :=
  match a.status with
  | .done => ⟨a.trace ++ k.trace, k.status⟩
  | _ => a

/-- A straight-line sequence of file operations, each followed by
`if err != nil { log.Fatal(msg, err) }`.  An operation that fails leaves no effect. -/
def fileOps (env : Env) : List (FileOp × Effect × String) → Run
  | [] => ⟨[], .done⟩
  | (op, e, msg) :: rest =>
    if env.fileOpFails op then ⟨[], .fatal msg⟩
    else (Run.mk [e] .done).andThen (fileOps env rest)

/-- The function `TestFile(name)`. -/
def TestFile (name : String) : String := "test_data/" ++ name ++ ".csv"

/-- The path `TestFile("client_latency_"+name+"_"+strconv.Itoa(i))`. -/
def latencyFile (name : String) (i : Nat) : String :=
  TestFile ("client_latency_" ++ name ++ "_" ++ toString i)

/-- The argument vector of the clean-up command
`exec.Command("./deploy2deter", "-kill=true", fmt.Sprintf("-nmachs=%d", machines), user)`. -/
def cleanupArgs (g : Globals) : List String :=
  ["./deploy2deter", "-kill=true", "-nmachs=" ++ toString g.machines, g.user]

/-- The body of the first loop of `RunTests`:
`ts[i].nmachs = machines; ts[i].bf = bf; ts[i].hpn = hpn`. -/
def overwrite (g : Globals) (t : T) : T :=
  { t with nmachs := g.machines, bf := g.bf, hpn := g.hpn }

/-- The loop `for r := 0; r < nTimes; r++` of `RunTests` for position `i`, in the state
`(r, runs)` with `left = nTimes - r` iterations to go.  Answers the effects and the
final `runs`. -/
def attemptLoop (env : Env) (g : Globals) (stopOnSuccess : Bool) (i : Nat) (t : T) :
    Nat → Nat → List RunStats → Run × List RunStats
  | 0, _, runs => (⟨[], .done⟩, runs)
  | left + 1, r, runs =>
    let res := RunTest g t (env.attempt i r)
    match res.outcome with
    | .exited msg => (⟨.callRunTest i r t :: res.effects, .fatal msg⟩, runs)
    | .returned run err =>
      let first : List Effect :=
        .callRunTest i r t :: res.effects ++
          [.returnRunTest i r run err, .cleanup (cleanupArgs g)]
      match err with
      | none =>
        if stopOnSuccess then (⟨first, .done⟩, runs ++ [run])
        else
          let next := attemptLoop env g stopOnSuccess i t left (r + 1) (runs ++ [run])
          (⟨first ++ next.1.trace, next.1.status⟩, next.2)
      | some _ =>
        let next := attemptLoop env g stopOnSuccess i t left (r + 1) runs
        (⟨first ++ next.1.trace, next.1.status⟩, next.2)

/-- What the body of the second loop of `RunTests` does after the attempts: nothing
when `len(runs) == 0` (the `continue`), else it writes and syncs the row of
`rs[i] = RunStatsAvg(runs)` and creates, writes, syncs and closes the latency file. -/
def recordRuns (env : Env) (lib : StatsLib) (name : String) (i : Nat)
    (runs : List RunStats) : Run :=
  if runs.length = 0 then ⟨[], .done⟩
  else
    let rsi := lib.RunStatsAvg runs
    (fileOps env
      [(.writeRow i, .write (TestFile name) (.row i (lib.CSV rsi)),
          "error writing data to test file:"),
       (.syncRow i, .sync (TestFile name), "error syncing data to test file:"),
       (.openLatency i, .openTrunc (latencyFile name i), "error opening test file:"),
       (.writeLatency i, .write (latencyFile name i) (.times i (lib.TimesCSV rsi)),
          "error writing client latencies to file:"),
       (.syncLatency i, .sync (latencyFile name i),
          "error syncing data to latency file:")]).andThen
      ⟨[.close (latencyFile name i)], .done⟩

/-- The body of the loop `for i, t := range ts` of `RunTests`. -/
def configStep (env : Env) (lib : StatsLib) (g : Globals) (name : String)
    (nTimes : Nat) (stopOnSuccess : Bool) (i : Nat) (t : T) : Run :=
  let a := attemptLoop env g stopOnSuccess i t nTimes 0 []
  a.1.andThen (recordRuns env lib name i a.2)

/-- The loop `for i, t := range ts` of `RunTests`, from position `i` on. -/
def configLoop (env : Env) (lib : StatsLib) (g : Globals) (name : String)
    (nTimes : Nat) (stopOnSuccess : Bool) : Nat → List T → Run
  | _, [] => ⟨[], .done⟩
  | i, t :: rest =>
    (configStep env lib g name nTimes stopOnSuccess i t).andThen
      (configLoop env lib g name nTimes stopOnSuccess (i + 1) rest)

/-- The local `nTimes := 1` of `RunTests`. -/
def nTimes : Nat := 1

/-- The local `stopOnSuccess := true` of `RunTests`. -/
def stopOnSuccess : Bool := true

/-- What a call of `RunTests` leaves behind: its effects, how it ended, and the slice
of the caller, which `RunTests` shares. -/
structure RunTestsResult where
  trace : List Effect
  status : Status
  ts : List T

/-- The function `RunTests(name, ts)`. -/
def RunTests (env : Env) (lib : StatsLib) (g : Globals) (name : String) (ts : List T) :
    RunTestsResult :=
  let ts1 := ts.map (overwrite g)
  let rs := List.replicate ts1.length RunStats.zero
  let run :=
    (fileOps env
      [(.openReport, .openTrunc (TestFile name), "error opening test file:")]).andThen <|
    match rs[0]? with
    | none => ⟨[], .panicked "index out of range"⟩
    | some rs0 =>
      (fileOps env
        [(.writeHeader, .write (TestFile name) (.header (lib.CSVHeader rs0)),
            "error writing test file header:"),
         (.syncHeader, .sync (TestFile name), "error syncing test file:")]).andThen
      (configLoop env lib g name nTimes stopOnSuccess 0 ts1)
  ⟨run.trace, run.status, ts1⟩

/-! ## Observations of a run -/

/-- The content of the file at `path` after the effects, when it was `c` before: a
successful open truncates it, a successful write appends to it. -/
def fileContentFrom (path : String) : List Written → List Effect → List Written
  | c, [] => c
  | c, .openTrunc p :: rest =>
    if p = path then fileContentFrom path [] rest else fileContentFrom path c rest
  | c, .write p w :: rest =>
    if p = path then fileContentFrom path (c ++ [w]) rest else fileContentFrom path c rest
  | c, _ :: rest => fileContentFrom path c rest

/-- The content of the file at `path` after the effects, when it did not exist before. -/
def fileContent (path : String) (trace : List Effect) : List Written :=
  fileContentFrom path [] trace

/-- Is the chunk a header row. -/
def Written.isHeader : Written → Bool
  | .header _ => true
  | _ => false

/-- The position of the chunk when it is a data row. -/
def Written.rowIndex : Written → Option Nat
  | .row i _ => some i
  | _ => none

/-- The number of header rows of a file content. -/
def headerRows (c : List Written) : Nat := c.countP Written.isHeader

/-- The positions of the data rows of a file content, in file order. -/
def dataRows (c : List Written) : List Nat := c.filterMap Written.rowIndex

/-- The number `max(0, floor((high - bf) / step) + 1)`: the iterations of the loop of
`DepthTest` started at `bf`. -/
def depthCount (bf high step : Int) : Nat := (Int.fdiv (high - bf) step + 1).toNat

/-! ## The validity of a measurement, in the words of the specification -/

/-- A latency is degenerate when it is zero or near zero: a finite value whose
magnitude is below the small epsilon. -/
def F64.degenerate : F64 → Bool
  | .fin q => decide (|q| < epsilon)
  | _ => false

/-- A result is invalid when one of minimum, maximum or average latency is degenerate,
or the throughput rate is not-a-number or infinite. -/
def invalidMeasurement (rs : RunStats) : Bool :=
  rs.MinTime.degenerate || rs.MaxTime.degenerate || rs.AvgTime.degenerate ||
    (match rs.Rate with
     | .nan => true
     | .inf _ => true
     | .fin _ => false)

/-! ## The skeleton of a run: attempts and clean-ups -/

/-- The two kinds of steps the retry policy is about. -/
inductive Mark
  /-- A call of `RunTest` in iteration `r` for position `i`. -/
  | attempt (i r : Nat)
  /-- A run of the clean-up command. -/
  | cleanup
deriving DecidableEq

/-- The mark of an effect, when it is an attempt or a clean-up. -/
def Effect.mark : Effect → Option Mark
  | .callRunTest i r _ => some (.attempt i r)
  | .cleanup _ => some .cleanup
  | _ => none

/-- The attempts and clean-ups of a trace, in order. -/
def skeleton (trace : List Effect) : List Mark := trace.filterMap Effect.mark

/-- The chunk an effect appends to the file at `path`, when it is a write to it. -/
def Effect.writtenTo (path : String) : Effect → Option Written
  | .write p w => if p = path then some w else none
  | _ => none

/-- A decimal digit character back to its value. -/
def digitValue (c : Char) : Nat := c.toNat - 48

/-- The effects of `RunTest` itself: what it does to the process, the goroutine and
the timer. -/
def Effect.isProcess : Effect → Bool
  | .start _ => true
  | .startFailed _ => true
  | .sleep _ => true
  | .monitorCall _ => true
  | .monitorReturn _ => true
  | .kill => true
  | .deadline => true
  | _ => false

/-- The effects of `recordRuns` for the summary `rsi` when no file operation fails. -/
def recordEffects (lib : StatsLib) (name : String) (i : Nat) (rsi : RunStats) : List Effect :=
  [.write (TestFile name) (.row i (lib.CSV rsi)),
   .sync (TestFile name),
   .openTrunc (latencyFile name i),
   .write (latencyFile name i) (.times i (lib.TimesCSV rsi)),
   .sync (latencyFile name i),
   .close (latencyFile name i)]

/-- The effects of `RunTests` before its second loop when no file operation fails. -/
def headEffects (lib : StatsLib) (name : String) : List Effect :=
  [.openTrunc (TestFile name),
   .write (TestFile name) (.header (lib.CSVHeader RunStats.zero)),
   .sync (TestFile name)]

/-- The positions of the data rows that the effects write to the file at `path`. -/
def rowsWritten (path : String) (trace : List Effect) : List Nat :=
  dataRows (trace.filterMap (Effect.writtenTo path))

/-- The report file holds a data row for position `i`. -/
def rowWritten (name : String) (trace : List Effect) (i : Nat) : Prop :=
  i ∈ dataRows (fileContent (TestFile name) trace)

/-- The companion latency file of position `i` was created. -/
def companionCreated (name : String) (trace : List Effect) (i : Nat) : Prop :=
  Effect.openTrunc (latencyFile name i) ∈ trace

/-- The effect is the return of an attempt for position `i` with a nil error. -/
def Effect.isSuccessAt (i : Nat) : Effect → Bool
  | .returnRunTest j _ _ none => decide (j = i)
  | _ => false

/-- An attempt for position `i` returned without error. -/
def attemptSucceeded (trace : List Effect) (i : Nat) : Prop :=
  ∃ e ∈ trace, e.isSuccessAt i = true

/-- The event lets the attempt return without error: `Monitor` returns in time with a
valid measurement. -/
def AttemptEvent.succeeds : AttemptEvent → Bool
  | .monitorFirst rs => !invalidMeasurement rs
  | _ => false

/-! ## Sample inputs -/

/-- The matrix `HostsTest` of the source, as `main` passes it to `RunTests`. -/
def HostsTest : List T :=
  [⟨3, 1, 2, 30, 20, 0, 0, 0, false, "stamp"⟩,
   ⟨3, 2, 3, 30, 20, 0, 0, 0, false, "stamp"⟩]

/-- The first three configurations of the matrix `FailureTests` of the source. -/
def FailureTests : List T :=
  [⟨3, 64, 16, 30, 50, 0, 0, 0, false, "stamp"⟩,
   ⟨3, 64, 16, 30, 50, 0, 5, 0, false, "stamp"⟩,
   ⟨3, 64, 16, 30, 50, 0, 10, 0, false, "stamp"⟩]

/-- A stand-in for the serialisation functions of `RunStats`: fixed texts, and the first
run as the average. -/
def sampleLib : StatsLib where
  CSVHeader := fun _ => "header"
  CSV := fun _ => "row"
  TimesCSV := fun _ => "times"
  RunStatsAvg := fun runs => runs.headD RunStats.zero

/-- A valid measurement: latencies of 1, 3 and 2 and a rate of 12.5. -/
def sampleStats : RunStats := ⟨.fin 1, .fin 3, .fin 2, .fin (mkRat 25 2), []⟩

/-- No file operation fails and every attempt times out. -/
def envTimeout : Env := ⟨fun _ _ => .deadlineFirst, fun _ => false⟩

/-- No file operation fails; the attempt for position 0 cannot start its process, all
other attempts time out. -/
def envStartFails : Env :=
  ⟨fun i _ => if i = 0 then .startFails else .deadlineFirst, fun _ => false⟩

/-- No file operation fails; the attempt for position 1 cannot start its process, all
other attempts time out. -/
def envStartFailsSecond : Env :=
  ⟨fun i _ => if i = 1 then .startFails else .deadlineFirst, fun _ => false⟩

/-- No file operation fails; the attempt for position 0 gets a valid measurement, all
other attempts time out. -/
def envFirstSucceeds : Env :=
  ⟨fun i _ => if i = 0 then .monitorFirst sampleStats else .deadlineFirst, fun _ => false⟩

/-- The attempt for position 0 gets a valid measurement, all other attempts time out;
the open of the latency file of position 0 fails, no other file operation does. -/
def envLatencyOpenFails : Env :=
  ⟨fun i _ => if i = 0 then .monitorFirst sampleStats else .deadlineFirst,
   fun op => decide (op = .openLatency 0)⟩

/-! ## Counting attempts and clean-ups -/

/-- The mark is an attempt. -/
def Mark.isAttempt : Mark → Bool
  | .attempt _ _ => true
  | .cleanup => false

/-- The mark is an attempt for position `i`. -/
def Mark.isAttemptAt (i : Nat) : Mark → Bool
  | .attempt j _ => decide (j = i)
  | .cleanup => false

/-- The mark is a clean-up. -/
def Mark.isCleanup : Mark → Bool
  | .attempt _ _ => false
  | .cleanup => true

/-! # Theorems -/

/-! ## Machine integers -/

theorem wrapInt_of_range {x : Int} (h1 : minInt ≤ x) (h2 : x ≤ maxInt) : wrapInt x = x := by
  unfold wrapInt
  unfold minInt at h1
  unfold maxInt at h2
  rw [Int.emod_eq_of_lt (by omega) (by omega)]
  omega

theorem wrapInt_le_maxInt (x : Int) : wrapInt x ≤ maxInt := by
  unfold wrapInt maxInt
  have h := Int.emod_lt_of_pos (x + 2 ^ 63) (show (0 : Int) < 2 ^ 64 by norm_num)
  omega

/-! ## The linear sweep `DepthTest` -/

theorem DepthTestLoop_of_gt (g : Globals) (hpn high step : Int) (fuel : Nat) (bf : Int)
    (acc : List T) (h : high < bf) :
    DepthTestLoop g hpn high step (fuel + 1) bf acc = some acc := by
  simp [DepthTestLoop, not_le.mpr h]

theorem DepthTestLoop_of_le (g : Globals) (hpn high step : Int) (fuel : Nat) (bf : Int)
    (acc : List T) (h : bf ≤ high) :
    DepthTestLoop g hpn high step (fuel + 1) bf acc =
      DepthTestLoop g hpn high step fuel (wrapInt (bf + step)) (acc ++ [sweepT g hpn bf]) := by
  simp [DepthTestLoop, h]

theorem depthCount_of_gt {bf high step : Int} (hstep : 0 < step) (h : high < bf) :
    depthCount bf high step = 0 := by
  unfold depthCount
  rw [Int.fdiv_eq_ediv _ hstep.le]
  have := Int.ediv_neg' (show high - bf < 0 by omega) hstep
  omega

theorem depthCount_of_le {bf high step : Int} (hstep : 0 < step) (h : bf ≤ high) :
    depthCount bf high step = depthCount (bf + step) high step + 1 := by
  unfold depthCount
  rw [Int.fdiv_eq_ediv _ hstep.le, Int.fdiv_eq_ediv _ hstep.le]
  have h0 := Int.ediv_nonneg (show 0 ≤ high - bf by omega) hstep.le
  have h1 : high - (bf + step) = (high - bf) + (-1) * step := by ring
  rw [h1, Int.add_mul_ediv_right _ _ hstep.ne.symm]
  omega

theorem DepthTestLoop_spec (g : Globals) (hpn high step : Int) (hstep : 0 < step)
    (hhigh : high + step ≤ maxInt) :
    ∀ (n : Nat) (bf : Int) (acc : List T) (fuel : Nat), minInt ≤ bf →
      depthCount bf high step = n → n < fuel →
      DepthTestLoop g hpn high step fuel bf acc =
        some (acc ++ (List.range n).map fun (k : Nat) => sweepT g hpn (bf + (k : Int) * step)) := by
  intro n
  induction n with
  | zero =>
    intro bf acc fuel _ hn hf
    obtain ⟨f, rfl⟩ : ∃ f, fuel = f + 1 := ⟨fuel - 1, by omega⟩
    have hgt : high < bf := by
      by_contra hle
      rw [depthCount_of_le hstep (not_lt.mp hle)] at hn
      omega
    simp [DepthTestLoop_of_gt g hpn high step f bf acc hgt]
  | succ m ih =>
    intro bf acc fuel hbf hn hf
    obtain ⟨f, rfl⟩ : ∃ f, fuel = f + 1 := ⟨fuel - 1, by omega⟩
    have hle : bf ≤ high := by
      by_contra hgt
      rw [depthCount_of_gt hstep (not_le.mp hgt)] at hn
      omega
    rw [depthCount_of_le hstep hle] at hn
    rw [DepthTestLoop_of_le g hpn high step f bf acc hle,
      wrapInt_of_range (by omega) (by omega),
      ih (bf + step) _ f (by omega) (by omega) (by omega)]
    simp only [List.range_succ_eq_map, List.map_cons, List.map_map, List.append_assoc,
      List.singleton_append, Option.some.injEq, List.append_cancel_left_eq, List.cons.injEq]
    refine ⟨by simp, ?_⟩
    apply List.map_congr_left
    intro k _
    simp only [Function.comp, Nat.succ_eq_add_one]
    congr 1
    push_cast
    ring

/-- The list `DepthTest` returns when no addition wraps around: the `k`-th element has
`bf = low + k * step`, for `k` below `depthCount low high step`. -/
theorem DepthTest_eq (g : Globals) (hpn low high step : Int) (hstep : 0 < step)
    (hlow : minInt ≤ low) (hhigh : high + step ≤ maxInt) (fuel : Nat)
    (hfuel : depthCount low high step < fuel) :
    DepthTest g fuel hpn low high step =
      some ((List.range (depthCount low high step)).map
        fun (k : Nat) => sweepT g hpn (low + (k : Int) * step)) := by
  unfold DepthTest
  rw [DepthTestLoop_spec g hpn high step hstep hhigh _ low [] fuel hlow rfl hfuel]
  simp

theorem DepthTestLoop_maxInt (g : Globals) (hpn step : Int) :
    ∀ (fuel : Nat) (bf : Int) (acc : List T), bf ≤ maxInt →
      DepthTestLoop g hpn maxInt step fuel bf acc = none := by
  intro fuel
  induction fuel with
  | zero => intro bf acc _; rfl
  | succ f ih =>
    intro bf acc h
    rw [DepthTestLoop_of_le g hpn maxInt step f bf acc h]
    exact ih _ _ (wrapInt_le_maxInt _)

/-! ## The geometric sweep `ScaleTest` -/

theorem ScaleTestLoop_of_gt (g : Globals) (bf high mult : Int) (fuel : Nat) (hpn : Int)
    (acc : List T) (h : high < hpn) :
    ScaleTestLoop g bf high mult (fuel + 1) hpn acc = some acc := by
  simp [ScaleTestLoop, not_le.mpr h]

theorem ScaleTestLoop_of_le (g : Globals) (bf high mult : Int) (fuel : Nat) (hpn : Int)
    (acc : List T) (h : hpn ≤ high) :
    ScaleTestLoop g bf high mult (fuel + 1) hpn acc =
      ScaleTestLoop g bf high mult fuel (wrapInt (hpn * mult)) (acc ++ [sweepT g hpn bf]) := by
  simp [ScaleTestLoop, h]

/-- A state that the update `hpn *= mult` maps to itself and that passes the loop test
is never left. -/
theorem ScaleTestLoop_stuck (g : Globals) (bf high mult hpn : Int) (hle : hpn ≤ high)
    (hfix : wrapInt (hpn * mult) = hpn) :
    ∀ (fuel : Nat) (acc : List T), ScaleTestLoop g bf high mult fuel hpn acc = none := by
  intro fuel
  induction fuel with
  | zero => intro acc; rfl
  | succ f ih =>
    intro acc
    rw [ScaleTestLoop_of_le g bf high mult f hpn acc hle, hfix]
    exact ih _

theorem ScaleTestLoop_maxInt (g : Globals) (bf mult : Int) :
    ∀ (fuel : Nat) (hpn : Int) (acc : List T), hpn ≤ maxInt →
      ScaleTestLoop g bf maxInt mult fuel hpn acc = none := by
  intro fuel
  induction fuel with
  | zero => intro hpn acc _; rfl
  | succ f ih =>
    intro hpn acc h
    rw [ScaleTestLoop_of_le g bf maxInt mult f hpn acc h]
    exact ih _ _ (wrapInt_le_maxInt _)

theorem ScaleTestLoop_spec (g : Globals) (bf high mult : Int) (hmult : 1 < mult)
    (hhigh : high * mult ≤ maxInt) :
    ∀ (d : Nat) (hpn : Int) (acc : List T), 1 ≤ hpn → (high + 1 - hpn).toNat ≤ d →
      ∃ n : Nat, (∀ k : Nat, k < n ↔ hpn * mult ^ k ≤ high) ∧
        ∀ fuel : Nat, n < fuel →
          ScaleTestLoop g bf high mult fuel hpn acc =
            some (acc ++ (List.range n).map fun (k : Nat) => sweepT g (hpn * mult ^ k) bf) := by
  intro d
  induction d with
  | zero =>
    intro hpn acc h1 hd
    have hgt : high < hpn := by omega
    refine ⟨0, ?_, ?_⟩
    · intro k
      have hk : 1 ≤ mult ^ k := one_le_pow₀ hmult.le
      have : hpn * 1 ≤ hpn * mult ^ k := Int.mul_le_mul_of_nonneg_left hk (by omega)
      constructor
      · intro h; omega
      · intro h; omega
    · intro fuel hf
      obtain ⟨f, rfl⟩ : ∃ f, fuel = f + 1 := ⟨fuel - 1, by omega⟩
      simp [ScaleTestLoop_of_gt g bf high mult f hpn acc hgt]
  | succ d ih =>
    intro hpn acc h1 hd
    by_cases hgt : high < hpn
    · refine ⟨0, ?_, ?_⟩
      · intro k
        have hk : 1 ≤ mult ^ k := one_le_pow₀ hmult.le
        have : hpn * 1 ≤ hpn * mult ^ k := Int.mul_le_mul_of_nonneg_left hk (by omega)
        constructor
        · intro h; omega
        · intro h; omega
      · intro fuel hf
        obtain ⟨f, rfl⟩ : ∃ f, fuel = f + 1 := ⟨fuel - 1, by omega⟩
        simp [ScaleTestLoop_of_gt g bf high mult f hpn acc hgt]
    · have hle : hpn ≤ high := not_lt.mp hgt
      have h2 : hpn * 2 ≤ hpn * mult := Int.mul_le_mul_of_nonneg_left (by omega) (by omega)
      have h3 : hpn * mult ≤ high * mult := Int.mul_le_mul_of_nonneg_right hle (by omega)
      have hmin : minInt ≤ hpn * mult := by unfold minInt; omega
      obtain ⟨n, hn, hrun⟩ := ih (hpn * mult) (acc ++ [sweepT g hpn bf]) (by omega) (by omega)
      refine ⟨n + 1, ?_, ?_⟩
      · intro k
        cases k with
        | zero => simp [hle]
        | succ j =>
          rw [Nat.add_lt_add_iff_right, hn j, pow_succ]
          constructor <;> intro h <;> nlinarith [h]
      · intro fuel hf
        obtain ⟨f, rfl⟩ : ∃ f, fuel = f + 1 := ⟨fuel - 1, by omega⟩
        rw [ScaleTestLoop_of_le g bf high mult f hpn acc hle,
          wrapInt_of_range hmin (by omega), hrun f (by omega)]
        simp only [List.range_succ_eq_map, List.map_cons, List.map_map, List.append_assoc,
          List.singleton_append, Option.some.injEq, List.append_cancel_left_eq,
          List.cons.injEq]
        refine ⟨by simp, ?_⟩
        apply List.map_congr_left
        intro k _
        simp only [Function.comp, Nat.succ_eq_add_one]
        congr 1
        rw [pow_succ]
        ring

/-! ## Claims about the generators -/

/-- C8, counterexample.  The claim promises `floor((high - low) / step) + 1` configurations
for every `low`, `high` and `step > 0`.  `DepthTest(1, 5, 3, 1)` returns the empty list
while the formula gives `-1`, and `DepthTest(1, maxInt, maxInt, 1)` never returns, because
`bf += 1` wraps around to `minInt` and `bf <= maxInt` holds for every `int`. -/
theorem DepthTest_count_fails :
    (∃ l : List T, DepthTest Globals.initial 1 1 5 3 1 = some l ∧
        (l.length : Int) ≠ Int.fdiv (3 - 5) 1 + 1) ∧
      ¬ ∃ fuel : Nat, (DepthTest Globals.initial fuel 1 maxInt maxInt 1).isSome = true := by
  refine ⟨⟨[], by decide, by decide⟩, ?_⟩
  rintro ⟨fuel, h⟩
  rw [DepthTest, DepthTestLoop_maxInt Globals.initial 1 1 fuel maxInt [] le_rfl] at h
  exact absurd h (by decide)

/-- C8, amended.  For every `hpn`, `low`, `high` and `step > 0` such that `high + step`
does not exceed the largest `int`, `DepthTest(hpn, low, high, step)` returns a list of
exactly `max(0, floor((high - low) / step) + 1)` configurations, the `k`-th of which is
`T{machines, hpn, low + k*step, 10, DefaultRounds, 0, 0, 0, false, "stamp"}`; so `bf` is
strictly increasing along the list and the other fields are the same in every element. -/
theorem DepthTest_linear_sweep (g : Globals) (hpn low high step : Int) (hstep : 0 < step)
    (hlow : minInt ≤ low) (hhigh : high + step ≤ maxInt) :
    ∃ l : List T,
      (∀ fuel : Nat, l.length < fuel → DepthTest g fuel hpn low high step = some l) ∧
      (l.length : Int) = max 0 (Int.fdiv (high - low) step + 1) ∧
      (∀ (k : Nat) (hk : k < l.length), l.get ⟨k, hk⟩ = sweepT g hpn (low + (k : Int) * step)) ∧
      l.Pairwise (fun a b => a.bf < b.bf) := by
  refine ⟨(List.range (depthCount low high step)).map
    fun (k : Nat) => sweepT g hpn (low + (k : Int) * step), ?_, ?_, ?_, ?_⟩
  · intro fuel hf
    exact DepthTest_eq g hpn low high step hstep hlow hhigh fuel (by simpa using hf)
  · simp only [List.length_map, List.length_range, depthCount]
    rw [Int.toNat_eq_max, max_comm]
  · intro k hk
    simp
  · rw [List.pairwise_map]
    refine List.Pairwise.imp ?_ (List.pairwise_lt_range _)
    intro a b hab
    have : (a : Int) < (b : Int) := by exact_mod_cast hab
    simp only [sweepT]
    nlinarith [this, hstep]

/-- C8, amended, at `DepthTest(1, 1, 10, 4)`. -/
theorem DepthTest_linear_sweep_witness :
    ∃ l : List T,
      (∀ fuel : Nat, l.length < fuel → DepthTest Globals.initial fuel 1 1 10 4 = some l) ∧
      (l.length : Int) = max 0 (Int.fdiv (10 - 1) 4 + 1) ∧
      (∀ (k : Nat) (hk : k < l.length),
        l.get ⟨k, hk⟩ = sweepT Globals.initial 1 (1 + (k : Int) * 4)) ∧
      l.Pairwise (fun a b => a.bf < b.bf) :=
  DepthTest_linear_sweep Globals.initial 1 1 10 4 (by decide) (by decide) (by decide)

/-- C7, counterexample.  The claim promises termination for every `low`, `high` and
`mult > 1`.  `ScaleTest(2, 0, 0, 2)` never returns, because `hpn *= 2` keeps `hpn` at `0`,
and `ScaleTest(2, 1, maxInt, 2)` never returns, because `hpn <= maxInt` holds for every
`int`. -/
theorem ScaleTest_termination_fails :
    (¬ ∃ fuel : Nat, (ScaleTest Globals.initial fuel 2 0 0 2).isSome = true) ∧
      ¬ ∃ fuel : Nat, (ScaleTest Globals.initial fuel 2 1 maxInt 2).isSome = true := by
  constructor
  · rintro ⟨fuel, h⟩
    rw [ScaleTest, ScaleTestLoop_stuck Globals.initial 2 0 2 0 le_rfl (by decide) fuel []] at h
    exact absurd h (by decide)
  · rintro ⟨fuel, h⟩
    rw [ScaleTest, ScaleTestLoop_maxInt Globals.initial 2 2 fuel 1 [] (by decide)] at h
    exact absurd h (by decide)

/-- C7, amended.  For every `bf`, every `low ≥ 1`, every `mult > 1` and every `high` such
that `high * mult` does not exceed the largest `int`, `ScaleTest(bf, low, high, mult)`
terminates and returns the geometric sweep from `low` to `high` inclusive: the list holds
exactly those `k` with `low * mult^k ≤ high`, and its `k`-th element is
`T{machines, low * mult^k, bf, 10, DefaultRounds, 0, 0, 0, false, "stamp"}`. -/
theorem ScaleTest_geometric_sweep (g : Globals) (bf low high mult : Int) (hmult : 1 < mult)
    (hlow : 1 ≤ low) (hhigh : high * mult ≤ maxInt) :
    ∃ l : List T,
      (∀ fuel : Nat, l.length < fuel → ScaleTest g fuel bf low high mult = some l) ∧
      (∀ k : Nat, k < l.length ↔ low * mult ^ k ≤ high) ∧
      (∀ (k : Nat) (hk : k < l.length), l.get ⟨k, hk⟩ = sweepT g (low * mult ^ k) bf) := by
  obtain ⟨n, hn, hrun⟩ :=
    ScaleTestLoop_spec g bf high mult hmult hhigh _ low [] hlow le_rfl
  refine ⟨(List.range n).map fun (k : Nat) => sweepT g (low * mult ^ k) bf, ?_, ?_, ?_⟩
  · intro fuel hf
    simpa [ScaleTest] using hrun fuel (by simpa using hf)
  · intro k
    simpa using hn k
  · intro k hk
    simp

/-- C7, amended, at `ScaleTest(10, 1, 100, 2)`, the sweep that `main` has in a comment. -/
theorem ScaleTest_geometric_sweep_witness :
    ∃ l : List T,
      (∀ fuel : Nat, l.length < fuel →
        ScaleTest Globals.initial fuel 10 1 100 2 = some l) ∧
      (∀ k : Nat, k < l.length ↔ (1 : Int) * 2 ^ k ≤ 100) ∧
      (∀ (k : Nat) (hk : k < l.length),
        l.get ⟨k, hk⟩ = sweepT Globals.initial (1 * 2 ^ k) 10) :=
  ScaleTest_geometric_sweep Globals.initial 10 1 100 2 (by decide) (by decide) (by decide)

/-- C6, counterexample.  `ScaleTest(2, 1, 1, 1)` never returns: `hpn *= 1` keeps `hpn` at
`1` and `1 <= 1` holds in every iteration. -/
theorem ScaleTest_mult_one_diverges :
    ¬ ∃ fuel : Nat, (ScaleTest Globals.initial fuel 2 1 1 1).isSome = true := by
  rintro ⟨fuel, h⟩
  rw [ScaleTest, ScaleTestLoop_stuck Globals.initial 2 1 1 1 le_rfl (by decide) fuel []] at h
  exact absurd h (by decide)

/-- C6, amended.  `ScaleTest` has no guard on `mult`.  For `mult ≤ 1` the call returns at
once, with the empty list, when `low > high`; for `mult = 1` and `low ≤ high` it never
returns; for `mult = 0` and `low ≤ high` it never returns when `0 ≤ high` and returns the
one configuration for `low` when `high < 0`. -/
theorem ScaleTest_mult_le_one (g : Globals) (bf low high mult : Int) (hmult : mult ≤ 1)
    (hmin : minInt ≤ low) (hmax : low ≤ maxInt) :
    (high < low → ∀ fuel : Nat, ScaleTest g (fuel + 1) bf low high mult = some []) ∧
    (mult = 1 → low ≤ high → ∀ fuel : Nat, ScaleTest g fuel bf low high mult = none) ∧
    (mult = 0 → low ≤ high → 0 ≤ high →
      ∀ fuel : Nat, ScaleTest g fuel bf low high mult = none) ∧
    (mult = 0 → low ≤ high → high < 0 →
      ∀ fuel : Nat, ScaleTest g (fuel + 2) bf low high mult = some [sweepT g low bf]) := by
  refine ⟨?_, ?_, ?_, ?_⟩
  · intro h fuel
    exact ScaleTestLoop_of_gt g bf high mult fuel low [] h
  · rintro rfl hle fuel
    exact ScaleTestLoop_stuck g bf high 1 low hle
      (by rw [mul_one]; exact wrapInt_of_range hmin hmax) fuel []
  · rintro rfl hle h0 fuel
    cases fuel with
    | zero => rfl
    | succ f =>
      rw [ScaleTest, ScaleTestLoop_of_le g bf high 0 f low [] hle, mul_zero]
      exact ScaleTestLoop_stuck g bf high 0 0 h0 (by decide) f _
  · rintro rfl hle h0 fuel
    rw [ScaleTest, ScaleTestLoop_of_le g bf high 0 (fuel + 1) low [] hle, mul_zero,
      show wrapInt 0 = 0 by decide, ScaleTestLoop_of_gt g bf high 0 fuel 0 _ h0]
    rfl

/-- C6, amended, at `ScaleTest(2, 1, 1, 1)`, `ScaleTest(2, 1, 0, 1)` and `mult = 0`. -/
theorem ScaleTest_mult_le_one_witness :
    (∀ fuel : Nat, ScaleTest Globals.initial fuel 2 1 1 1 = none) ∧
    (∀ fuel : Nat, ScaleTest Globals.initial (fuel + 1) 2 1 0 1 = some []) :=
  ⟨(ScaleTest_mult_le_one Globals.initial 2 1 1 1 (by decide) (by decide) (by decide)).2.1
      rfl (by decide),
   (ScaleTest_mult_le_one Globals.initial 2 1 0 1 (by decide) (by decide) (by decide)).1
      (by decide)⟩

/-! ## File names -/

theorem digitValue_digitChar (k : Nat) (hk : k < 10) : digitValue (Nat.digitChar k) = k := by
  interval_cases k <;> rfl

theorem toDigitsCore_value : ∀ (fuel n : Nat) (ds : List Char), n < fuel →
    ∃ l : List Char, Nat.toDigitsCore 10 fuel n ds = l ++ ds ∧
      ∀ a : Nat, l.foldl (fun v c => 10 * v + digitValue c) a = a * 10 ^ l.length + n := by
  intro fuel
  induction fuel with
  | zero => intro n ds h; omega
  | succ f ih =>
    intro n ds h
    unfold Nat.toDigitsCore
    by_cases h0 : n / 10 = 0
    · refine ⟨[Nat.digitChar (n % 10)], by simp [h0], ?_⟩
      intro a
      have hd := digitValue_digitChar n (by omega)
      have : n % 10 = n := by omega
      simp only [this, List.foldl_cons, List.foldl_nil, hd, List.length_singleton, pow_one]
      ring
    · obtain ⟨l, hl, hv⟩ := ih (n / 10) (Nat.digitChar (n % 10) :: ds) (by omega)
      refine ⟨l ++ [Nat.digitChar (n % 10)], by simp [h0, hl], ?_⟩
      intro a
      simp only [List.foldl_append, List.foldl_cons, List.foldl_nil, hv,
        digitValue_digitChar (n % 10) (Nat.mod_lt _ (by norm_num)), List.length_append,
        List.length_singleton, pow_succ]
      have := Nat.div_add_mod n 10
      nlinarith [this]

/-- The function `strconv.Itoa` gives different strings for different positions. -/
theorem toString_nat_injective {i j : Nat} (h : toString i = toString j) : i = j := by
  have h1 : Nat.toDigits 10 i = Nat.toDigits 10 j := by
    have := congrArg String.data h
    simpa [toString, Nat.repr, List.asString] using this
  obtain ⟨li, hli, hvi⟩ := toDigitsCore_value (i + 1) i [] (by omega)
  obtain ⟨lj, hlj, hvj⟩ := toDigitsCore_value (j + 1) j [] (by omega)
  unfold Nat.toDigits at h1
  rw [hli, hlj] at h1
  simp only [List.append_nil] at h1
  subst h1
  have := hvi 0
  rw [hvj 0] at this
  omega

theorem latencyFile_injective {name : String} {i j : Nat}
    (h : latencyFile name i = latencyFile name j) : i = j := by
  apply toString_nat_injective
  have := congrArg String.data h
  simp only [latencyFile, TestFile, String.data_append, List.append_assoc,
    List.append_cancel_left_eq, List.append_cancel_right_eq] at this
  exact String.ext this

theorem latencyFile_ne_TestFile (name : String) (i : Nat) :
    latencyFile name i ≠ TestFile name := by
  intro h
  have := congrArg String.length h
  simp only [latencyFile, TestFile, String.length_append] at this
  have h1 : "test_data/".length = 10 := by decide
  have h2 : "client_latency_".length = 15 := by decide
  omega

/-! ## One attempt -/

theorem isZero_eq_degenerate (f : F64) : isZero f = f.degenerate := by
  cases f with
  | nan => rfl
  | inf s => cases s <;> rfl
  | fin q => rfl

theorem badData_eq_invalidMeasurement (rs : RunStats) : badData rs = invalidMeasurement rs := by
  unfold badData invalidMeasurement
  rw [isZero_eq_degenerate, isZero_eq_degenerate, isZero_eq_degenerate]
  cases hr : rs.Rate with
  | nan => simp [F64.isNaN, F64.isInf]
  | inf s => cases s <;> simp [F64.isNaN, F64.isInf]
  | fin q => simp [F64.isNaN, F64.isInf]

/-- The constant of `isZero` is the rational `7555786372591432 / 2^76`, which is below
`1e-7` by less than `2^-77`. -/
theorem epsilon_value :
    epsilon = 7555786372591432 / 2 ^ 76 ∧ epsilon < 1 / 10 ^ 7 ∧
      1 / 10 ^ 7 - epsilon < 1 / 2 ^ 77 := by
  have h : epsilon = 7555786372591432 / 2 ^ 76 := by
    unfold epsilon
    rw [Rat.mkRat_eq_div]
    norm_num
  refine ⟨h, ?_, ?_⟩ <;> rw [h] <;> norm_num

/-- C9.  When `Monitor` returns before the deadline, `RunTest` returns the measurement it
got from `Monitor`, unchanged, and the error it returns with it is non-nil if and only if
the measurement is invalid: one of `MinTime`, `MaxTime`, `AvgTime` is degenerate (a finite
value of magnitude below the epsilon of `isZero`) or `Rate` is NaN or infinite.  So a valid
measurement is returned with a nil error. -/
theorem RunTest_monitorFirst (g : Globals) (t : T) (rs : RunStats) :
    ∃ err : Option RunErr,
      (RunTest g t (.monitorFirst rs)).outcome = .returned rs err ∧
      (err ≠ none ↔ invalidMeasurement rs = true) ∧
      (err = none ↔ invalidMeasurement rs = false) := by
  refine ⟨if badData rs then some (.unableToGetGoodData rs) else none, rfl, ?_, ?_⟩
  · rw [badData_eq_invalidMeasurement]
    cases invalidMeasurement rs <;> simp
  · rw [badData_eq_invalidMeasurement]
    cases invalidMeasurement rs <;> simp

/-- On the path of `case <-done` the goroutine has killed the process before `RunTest`
returns. -/
theorem RunTest_monitorFirst_kills (g : Globals) (t : T) (rs : RunStats) :
    Effect.kill ∈ (RunTest g t (.monitorFirst rs)).effects := by
  simp [RunTest]

/-- When `cmd.Start` fails, `log.Fatal` ends the process: `RunTest` does not return, and
it has not killed anything. -/
theorem RunTest_startFails (g : Globals) (t : T) :
    (RunTest g t .startFails).outcome = .exited "cmd.Start" ∧
      Effect.kill ∉ (RunTest g t .startFails).effects := by
  simp [RunTest]

/-- C1, the code at the failing event.  When the timer fires while `Monitor` is still
blocked, `RunTest` returns the zero `RunStats` with the error "timed out", and the effects
it has performed by then are the start of the process, the sleep, the call of `Monitor`
and the timer: there is no kill among them. -/
theorem RunTest_deadline_no_kill (g : Globals) (t : T) :
    (RunTest g t .deadlineFirst).outcome = .returned RunStats.zero (some .timedOut) ∧
      (RunTest g t .deadlineFirst).effects =
        [.start (RunTestArgs g t), .sleep 30, .monitorCall t.bf, .deadline] ∧
      Effect.kill ∉ (RunTest g t .deadlineFirst).effects := by
  simp [RunTest]

/-! ## Sequencing -/

theorem Run.andThen_of_done {a : Run} (k : Run) (h : a.status = .done) :
    a.andThen k = ⟨a.trace ++ k.trace, k.status⟩ := by
  unfold Run.andThen
  rw [h]

theorem Run.andThen_of_not_done {a : Run} (k : Run) (h : a.status ≠ .done) :
    a.andThen k = a := by
  unfold Run.andThen
  cases hs : a.status with
  | done => exact absurd hs h
  | fatal m => rfl
  | panicked m => rfl

theorem Run.andThen_trace (a k : Run) :
    (a.andThen k).trace = a.trace ++ (if a.status = .done then k.trace else []) := by
  by_cases h : a.status = .done
  · simp [Run.andThen_of_done k h, h]
  · simp [Run.andThen_of_not_done k h, h]

theorem Run.andThen_status (a k : Run) :
    (a.andThen k).status = if a.status = .done then k.status else a.status := by
  by_cases h : a.status = .done
  · simp [Run.andThen_of_done k h, h]
  · simp [Run.andThen_of_not_done k h, h]

theorem Run.mem_andThen {a k : Run} {e : Effect} :
    e ∈ (a.andThen k).trace ↔ e ∈ a.trace ∨ (a.status = .done ∧ e ∈ k.trace) := by
  rw [Run.andThen_trace]
  by_cases h : a.status = .done <;> simp [h]

theorem Run.andThen_done_iff {a k : Run} :
    (a.andThen k).status = .done ↔ a.status = .done ∧ k.status = .done := by
  rw [Run.andThen_status]
  by_cases h : a.status = .done <;> simp [h]

/-! ## File operations -/

theorem fileOps_of_ok (env : Env) (hio : ∀ op, env.fileOpFails op = false) :
    ∀ l : List (FileOp × Effect × String),
      fileOps env l = ⟨l.map (fun x => x.2.1), .done⟩ := by
  intro l
  induction l with
  | nil => rfl
  | cons x rest ih =>
    obtain ⟨op, e, msg⟩ := x
    simp [fileOps, hio op, ih, Run.andThen]

theorem mem_fileOps (env : Env) {e : Effect} :
    ∀ l : List (FileOp × Effect × String),
      e ∈ (fileOps env l).trace → e ∈ l.map (fun x => x.2.1) := by
  intro l
  induction l with
  | nil => intro h; simp [fileOps] at h
  | cons x rest ih =>
    obtain ⟨op, e1, msg⟩ := x
    intro h
    by_cases hf : env.fileOpFails op = true
    · simp [fileOps, hf] at h
    · simp only [fileOps, hf, Bool.false_eq_true, if_false, Run.mem_andThen,
        List.mem_singleton] at h
      rcases h with h | ⟨_, h⟩
      · simp [h]
      · simp [ih h]

theorem fileOps_done (env : Env) :
    ∀ l : List (FileOp × Effect × String), (fileOps env l).status = .done →
      (fileOps env l).trace = l.map (fun x => x.2.1) := by
  intro l
  induction l with
  | nil => intro _; rfl
  | cons x rest ih =>
    obtain ⟨op, e1, msg⟩ := x
    intro h
    by_cases hf : env.fileOpFails op = true
    · simp [fileOps, hf] at h
    · simp only [fileOps, hf, Bool.false_eq_true, if_false] at h ⊢
      rw [Run.andThen_done_iff] at h
      rw [Run.andThen_trace]
      simp [ih h.2]

theorem fileOps_not_panicked (env : Env) :
    ∀ (l : List (FileOp × Effect × String)) (m : String),
      (fileOps env l).status ≠ .panicked m := by
  intro l
  induction l with
  | nil => intro m; simp [fileOps]
  | cons x rest ih =>
    obtain ⟨op, e1, msg⟩ := x
    intro m
    by_cases hf : env.fileOpFails op = true
    · simp [fileOps, hf]
    · simp only [fileOps, hf, Bool.false_eq_true, if_false, Run.andThen_status, if_true]
      exact ih m

/-! ## Recording the runs of one configuration -/

theorem recordRuns_single_of_ok (env : Env) (hio : ∀ op, env.fileOpFails op = false)
    (lib : StatsLib) (name : String) (i : Nat) (rs : RunStats) :
    recordRuns env lib name i [rs] =
      ⟨recordEffects lib name i (lib.RunStatsAvg [rs]), .done⟩ := by
  simp [recordRuns, fileOps_of_ok env hio, Run.andThen, recordEffects]

theorem mem_recordRuns_single (env : Env) (lib : StatsLib) (name : String) (i : Nat)
    (rs : RunStats) {e : Effect} (h : e ∈ (recordRuns env lib name i [rs]).trace) :
    e ∈ recordEffects lib name i (lib.RunStatsAvg [rs]) := by
  simp only [recordRuns, List.length_singleton, one_ne_zero, if_false,
    Run.mem_andThen, List.mem_singleton] at h
  rcases h with h | ⟨_, h⟩
  · have := mem_fileOps env _ h
    simp only [List.map_cons, List.map_nil] at this
    simp only [recordEffects]
    simp only [List.mem_cons, List.mem_singleton, List.not_mem_nil, or_false] at this ⊢
    tauto
  · simp [recordEffects, h]

theorem recordRuns_single_done (env : Env) (lib : StatsLib) (name : String) (i : Nat)
    (rs : RunStats) (h : (recordRuns env lib name i [rs]).status = .done) :
    (recordRuns env lib name i [rs]).trace =
      recordEffects lib name i (lib.RunStatsAvg [rs]) := by
  simp only [recordRuns, List.length_singleton, one_ne_zero, if_false] at h ⊢
  rw [Run.andThen_done_iff] at h
  rw [Run.andThen_trace, fileOps_done env _ h.1]
  simp [h.1, recordEffects]

theorem recordRuns_single_not_panicked (env : Env) (lib : StatsLib) (name : String)
    (i : Nat) (rs : RunStats) (m : String) :
    (recordRuns env lib name i [rs]).status ≠ .panicked m := by
  simp only [recordRuns, List.length_singleton, one_ne_zero, if_false, Run.andThen_status]
  split
  · simp
  · exact fileOps_not_panicked env _ m

/-! ## One configuration -/

theorem RunTest_effects_isProcess (g : Globals) (t : T) (ev : AttemptEvent) :
    ∀ e ∈ (RunTest g t ev).effects, e.isProcess = true := by
  cases ev <;> simp [RunTest, Effect.isProcess]

/-- The body of the loop over the matrix, by the way the single attempt ends. -/
theorem configStep_cases (env : Env) (lib : StatsLib) (g : Globals) (name : String)
    (i : Nat) (t : T) :
    (∃ msg, (RunTest g t (env.attempt i 0)).outcome = .exited msg ∧
      configStep env lib g name nTimes stopOnSuccess i t =
        ⟨.callRunTest i 0 t :: (RunTest g t (env.attempt i 0)).effects, .fatal msg⟩) ∨
    (∃ rs err, (RunTest g t (env.attempt i 0)).outcome = .returned rs (some err) ∧
      configStep env lib g name nTimes stopOnSuccess i t =
        ⟨.callRunTest i 0 t :: (RunTest g t (env.attempt i 0)).effects ++
          [.returnRunTest i 0 rs (some err), .cleanup (cleanupArgs g)], .done⟩) ∨
    (∃ rs, (RunTest g t (env.attempt i 0)).outcome = .returned rs none ∧
      configStep env lib g name nTimes stopOnSuccess i t =
        ⟨(.callRunTest i 0 t :: (RunTest g t (env.attempt i 0)).effects ++
          [.returnRunTest i 0 rs none, .cleanup (cleanupArgs g)]) ++
            (recordRuns env lib name i [rs]).trace,
          (recordRuns env lib name i [rs]).status⟩) := by
  rcases h : (RunTest g t (env.attempt i 0)).outcome with ⟨rs, err⟩ | msg
  · cases err with
    | none =>
      right; right
      refine ⟨rs, rfl, ?_⟩
      simp [configStep, nTimes, stopOnSuccess, attemptLoop, h, Run.andThen]
    | some err =>
      right; left
      refine ⟨rs, err, rfl, ?_⟩
      simp [configStep, nTimes, stopOnSuccess, attemptLoop, h, Run.andThen, recordRuns]
  · left
    refine ⟨msg, rfl, ?_⟩
    simp [configStep, nTimes, stopOnSuccess, attemptLoop, h, Run.andThen]

theorem RunTest_exited_iff (g : Globals) (t : T) (ev : AttemptEvent) (msg : String) :
    (RunTest g t ev).outcome = .exited msg ↔ ev = .startFails ∧ msg = "cmd.Start" := by
  cases ev with
  | startFails =>
    simp only [RunTest, RunTestOutcome.exited.injEq, true_and]
    exact eq_comm
  | monitorFirst rs => simp [RunTest]
  | deadlineFirst => simp [RunTest]

theorem RunTest_start_args (g : Globals) (t : T) (ev : AttemptEvent) (args : List String)
    (h : Effect.start args ∈ (RunTest g t ev).effects ∨
      Effect.startFailed args ∈ (RunTest g t ev).effects) :
    args = RunTestArgs g t := by
  cases ev <;> simpa [RunTest] using h

theorem mem_configStep (env : Env) (lib : StatsLib) (g : Globals) (name : String)
    (i : Nat) (t : T) (e : Effect)
    (h : e ∈ (configStep env lib g name nTimes stopOnSuccess i t).trace) :
    e = .callRunTest i 0 t ∨ e ∈ (RunTest g t (env.attempt i 0)).effects ∨
      (∃ rs err, (RunTest g t (env.attempt i 0)).outcome = .returned rs err ∧
        (e = .returnRunTest i 0 rs err ∨ e = .cleanup (cleanupArgs g))) ∨
      (∃ rs, (RunTest g t (env.attempt i 0)).outcome = .returned rs none ∧
        e ∈ recordEffects lib name i (lib.RunStatsAvg [rs])) := by
  rcases configStep_cases env lib g name i t with
    ⟨msg, ho, hS⟩ | ⟨rs, err, ho, hS⟩ | ⟨rs, ho, hS⟩
  · rw [hS] at h
    simp only [List.mem_cons] at h
    tauto
  · rw [hS] at h
    simp only [List.cons_append, List.mem_cons, List.mem_append, List.mem_singleton,
      List.not_mem_nil, or_false] at h
    rcases h with h | h | h | h
    · exact Or.inl h
    · exact Or.inr (Or.inl h)
    · exact Or.inr (Or.inr (Or.inl ⟨rs, some err, ho, Or.inl h⟩))
    · exact Or.inr (Or.inr (Or.inl ⟨rs, some err, ho, Or.inr h⟩))
  · rw [hS] at h
    simp only [List.cons_append, List.mem_cons, List.mem_append, List.mem_singleton,
      List.not_mem_nil, or_false] at h
    rcases h with h | (h | h | h) | h
    · exact Or.inl h
    · exact Or.inr (Or.inl h)
    · exact Or.inr (Or.inr (Or.inl ⟨rs, none, ho, Or.inl h⟩))
    · exact Or.inr (Or.inr (Or.inl ⟨rs, none, ho, Or.inr h⟩))
    · exact Or.inr (Or.inr (Or.inr ⟨rs, ho, mem_recordRuns_single env lib name i rs h⟩))

/-- The only call in the body for position `i` is the call for `i`, in iteration `0`, on
the configuration of the loop variable. -/
theorem call_mem_configStep (env : Env) (lib : StatsLib) (g : Globals) (name : String)
    (i : Nat) (t : T) (j r : Nat) (t1 : T)
    (h : Effect.callRunTest j r t1 ∈ (configStep env lib g name nTimes stopOnSuccess i t).trace) :
    j = i ∧ r = 0 ∧ t1 = t := by
  rcases mem_configStep env lib g name i t _ h with h | h | ⟨rs, err, _, h | h⟩ | ⟨rs, _, h⟩
  · simpa using h
  · simpa [Effect.isProcess] using RunTest_effects_isProcess g t _ _ h
  · simp at h
  · simp at h
  · simp [recordEffects] at h

theorem return_mem_configStep (env : Env) (lib : StatsLib) (g : Globals) (name : String)
    (i : Nat) (t : T) (j r : Nat) (rs : RunStats) (err : Option RunErr)
    (h : Effect.returnRunTest j r rs err ∈
      (configStep env lib g name nTimes stopOnSuccess i t).trace) :
    j = i ∧ r = 0 ∧ (RunTest g t (env.attempt i 0)).outcome = .returned rs err := by
  rcases mem_configStep env lib g name i t _ h with h | h | ⟨rs1, err1, ho, h | h⟩ | ⟨rs1, _, h⟩
  · simp at h
  · simpa [Effect.isProcess] using RunTest_effects_isProcess g t _ _ h
  · simp only [Effect.returnRunTest.injEq] at h
    obtain ⟨rfl, rfl, rfl, rfl⟩ := h
    exact ⟨rfl, rfl, ho⟩
  · simp at h
  · simp [recordEffects] at h

theorem cleanup_mem_configStep (env : Env) (lib : StatsLib) (g : Globals) (name : String)
    (i : Nat) (t : T) (args : List String)
    (h : Effect.cleanup args ∈ (configStep env lib g name nTimes stopOnSuccess i t).trace) :
    args = cleanupArgs g := by
  rcases mem_configStep env lib g name i t _ h with h | h | ⟨rs1, err1, ho, h | h⟩ | ⟨rs1, _, h⟩
  · simp at h
  · simpa [Effect.isProcess] using RunTest_effects_isProcess g t _ _ h
  · simp at h
  · simpa using h
  · simp [recordEffects] at h

theorem start_mem_configStep (env : Env) (lib : StatsLib) (g : Globals) (name : String)
    (i : Nat) (t : T) (args : List String)
    (h : Effect.start args ∈ (configStep env lib g name nTimes stopOnSuccess i t).trace ∨
      Effect.startFailed args ∈ (configStep env lib g name nTimes stopOnSuccess i t).trace) :
    args = RunTestArgs g t := by
  rcases h with h | h
  · rcases mem_configStep env lib g name i t _ h with h | h | ⟨rs1, err1, ho, h | h⟩ | ⟨rs1, _, h⟩
    · simp at h
    · exact RunTest_start_args g t _ args (Or.inl h)
    · simp at h
    · simp at h
    · simp [recordEffects] at h
  · rcases mem_configStep env lib g name i t _ h with h | h | ⟨rs1, err1, ho, h | h⟩ | ⟨rs1, _, h⟩
    · simp at h
    · exact RunTest_start_args g t _ args (Or.inr h)
    · simp at h
    · simp at h
    · simp [recordEffects] at h

/-- A successful return of the attempt for position `i` is in the trace of the body as
soon as the attempt returned without error. -/
theorem return_ok_mem_configStep (env : Env) (lib : StatsLib) (g : Globals) (name : String)
    (i : Nat) (t : T) (rs : RunStats)
    (ho : (RunTest g t (env.attempt i 0)).outcome = .returned rs none) :
    Effect.returnRunTest i 0 rs none ∈
      (configStep env lib g name nTimes stopOnSuccess i t).trace := by
  rcases configStep_cases env lib g name i t with
    ⟨msg, ho1, hS⟩ | ⟨rs1, err, ho1, hS⟩ | ⟨rs1, ho1, hS⟩
  · rw [ho] at ho1; simp at ho1
  · rw [ho] at ho1; simp at ho1
  · rw [ho] at ho1
    simp only [RunTestOutcome.returned.injEq, and_true] at ho1
    subst ho1
    rw [hS]
    simp

/-- A write or an open in the body for position `i` is one of `recordRuns`, after a
successful attempt for `i`. -/
theorem file_mem_configStep (env : Env) (lib : StatsLib) (g : Globals) (name : String)
    (i : Nat) (t : T) (e : Effect)
    (h : e ∈ (configStep env lib g name nTimes stopOnSuccess i t).trace)
    (he : (∃ p w, e = .write p w) ∨ ∃ p, e = .openTrunc p) :
    ∃ rs, Effect.returnRunTest i 0 rs none ∈
        (configStep env lib g name nTimes stopOnSuccess i t).trace ∧
      e ∈ recordEffects lib name i (lib.RunStatsAvg [rs]) := by
  rcases mem_configStep env lib g name i t _ h with h | h | ⟨rs1, err1, ho, h | h⟩ | ⟨rs1, ho, h⟩
  · rcases he with ⟨p, w, he⟩ | ⟨p, he⟩ <;> simp [he] at h
  · have := RunTest_effects_isProcess g t _ _ h
    rcases he with ⟨p, w, he⟩ | ⟨p, he⟩ <;> simp [he, Effect.isProcess] at this
  · rcases he with ⟨p, w, he⟩ | ⟨p, he⟩ <;> simp [he] at h
  · rcases he with ⟨p, w, he⟩ | ⟨p, he⟩ <;> simp [he] at h
  · exact ⟨rs1, return_ok_mem_configStep env lib g name i t rs1 ho, h⟩

theorem configStep_not_panicked (env : Env) (lib : StatsLib) (g : Globals) (name : String)
    (i : Nat) (t : T) (m : String) :
    (configStep env lib g name nTimes stopOnSuccess i t).status ≠ .panicked m := by
  rcases configStep_cases env lib g name i t with
    ⟨msg, ho1, hS⟩ | ⟨rs1, err, ho1, hS⟩ | ⟨rs1, ho1, hS⟩
  · rw [hS]; simp
  · rw [hS]; simp
  · rw [hS]; exact recordRuns_single_not_panicked env lib name i rs1 m

theorem configStep_startFails (env : Env) (lib : StatsLib) (g : Globals) (name : String)
    (i : Nat) (t : T) (h : env.attempt i 0 = .startFails) :
    configStep env lib g name nTimes stopOnSuccess i t =
      ⟨[.callRunTest i 0 t, .startFailed (RunTestArgs g t)], .fatal "cmd.Start"⟩ := by
  simp [configStep, nTimes, stopOnSuccess, attemptLoop, h, RunTest, Run.andThen]

theorem configStep_done_of_ok (env : Env) (hio : ∀ op, env.fileOpFails op = false)
    (lib : StatsLib) (g : Globals) (name : String) (i : Nat) (t : T)
    (h : env.attempt i 0 ≠ .startFails) :
    (configStep env lib g name nTimes stopOnSuccess i t).status = .done := by
  rcases configStep_cases env lib g name i t with
    ⟨msg, ho1, hS⟩ | ⟨rs1, err, ho1, hS⟩ | ⟨rs1, ho1, hS⟩
  · exact absurd ((RunTest_exited_iff g t _ msg).mp ho1).1 h
  · rw [hS]
  · rw [hS, recordRuns_single_of_ok env hio]

theorem configStep_recorded_of_ok (env : Env) (hio : ∀ op, env.fileOpFails op = false)
    (lib : StatsLib) (g : Globals) (name : String) (i : Nat) (t : T) (rs : RunStats)
    (ho : (RunTest g t (env.attempt i 0)).outcome = .returned rs none) :
    ∀ e ∈ recordEffects lib name i (lib.RunStatsAvg [rs]),
      e ∈ (configStep env lib g name nTimes stopOnSuccess i t).trace := by
  intro e he
  rcases configStep_cases env lib g name i t with
    ⟨msg, ho1, hS⟩ | ⟨rs1, err, ho1, hS⟩ | ⟨rs1, ho1, hS⟩
  · rw [ho] at ho1; simp at ho1
  · rw [ho] at ho1; simp at ho1
  · rw [ho] at ho1
    simp only [RunTestOutcome.returned.injEq, and_true] at ho1
    subst ho1
    rw [hS, recordRuns_single_of_ok env hio]
    simp [he]

/-- The attempts and clean-ups of a body that ran to its end: one attempt, then one
clean-up. -/
theorem skeleton_configStep_done (env : Env) (lib : StatsLib) (g : Globals) (name : String)
    (i : Nat) (t : T)
    (h : (configStep env lib g name nTimes stopOnSuccess i t).status = .done) :
    skeleton (configStep env lib g name nTimes stopOnSuccess i t).trace =
      [.attempt i 0, .cleanup] := by
  have hp : (RunTest g t (env.attempt i 0)).effects.filterMap Effect.mark = [] := by
    cases env.attempt i 0 <;> simp [RunTest, Effect.mark]
  rcases configStep_cases env lib g name i t with
    ⟨msg, ho1, hS⟩ | ⟨rs1, err, ho1, hS⟩ | ⟨rs1, ho1, hS⟩
  · rw [hS] at h; simp at h
  · rw [hS]
    simp [skeleton, List.filterMap_cons, List.filterMap_append, hp, Effect.mark]
  · rw [hS] at h ⊢
    simp only at h
    rw [recordRuns_single_done env lib name i rs1 h]
    simp [skeleton, List.filterMap_cons, List.filterMap_append, hp, Effect.mark,
      recordEffects]

/-! ## The loop over the matrix -/

/-- Every effect of the loop is an effect of the body for some position `i0 + k`; that
body was reached, so all its effects are in the trace and every body before it ran to
its end. -/
theorem mem_configLoop (env : Env) (lib : StatsLib) (g : Globals) (name : String)
    (N : Nat) (stop : Bool) :
    ∀ (ts : List T) (i0 : Nat) (e : Effect),
      e ∈ (configLoop env lib g name N stop i0 ts).trace →
      ∃ k t, ts[k]? = some t ∧ e ∈ (configStep env lib g name N stop (i0 + k) t).trace ∧
        (∀ e1 ∈ (configStep env lib g name N stop (i0 + k) t).trace,
          e1 ∈ (configLoop env lib g name N stop i0 ts).trace) ∧
        (∀ k1 t1, k1 < k → ts[k1]? = some t1 →
          (configStep env lib g name N stop (i0 + k1) t1).status = .done) := by
  intro ts
  induction ts with
  | nil => intro i0 e h; simp [configLoop] at h
  | cons t rest ih =>
    intro i0 e h
    simp only [configLoop, Run.mem_andThen] at h
    rcases h with h | ⟨hd, h⟩
    · refine ⟨0, t, by simp, by simpa using h, ?_, ?_⟩
      · intro e1 h1
        simp only [configLoop, Run.mem_andThen]
        left
        simpa using h1
      · intro k1 t1 hk
        omega
    · obtain ⟨k, t1, hk, he, hsub, hprev⟩ := ih (i0 + 1) e h
      refine ⟨k + 1, t1, by simpa using hk, ?_, ?_, ?_⟩
      · rwa [show i0 + (k + 1) = i0 + 1 + k by omega]
      · intro e1 h1
        rw [show i0 + (k + 1) = i0 + 1 + k by omega] at h1
        simp only [configLoop, Run.mem_andThen]
        exact Or.inr ⟨hd, hsub e1 h1⟩
      · intro k1 t2 hk1 ht2
        cases k1 with
        | zero =>
          simp only [List.getElem?_cons_zero, Option.some.injEq] at ht2
          subst ht2
          simpa using hd
        | succ k2 =>
          rw [show i0 + (k2 + 1) = i0 + 1 + k2 by omega]
          exact hprev k2 t2 (by omega) (by simpa using ht2)

/-- A body that is reached has all its effects in the trace of the loop, and when it
does not run to its end the loop ends the way it does. -/
theorem configLoop_reaches (env : Env) (lib : StatsLib) (g : Globals) (name : String)
    (N : Nat) (stop : Bool) :
    ∀ (ts : List T) (i0 k : Nat) (t : T), ts[k]? = some t →
      (∀ k1 t1, k1 < k → ts[k1]? = some t1 →
        (configStep env lib g name N stop (i0 + k1) t1).status = .done) →
      (∀ e ∈ (configStep env lib g name N stop (i0 + k) t).trace,
          e ∈ (configLoop env lib g name N stop i0 ts).trace) ∧
        ((configStep env lib g name N stop (i0 + k) t).status ≠ .done →
          (configLoop env lib g name N stop i0 ts).status =
            (configStep env lib g name N stop (i0 + k) t).status) := by
  intro ts
  induction ts with
  | nil => intro i0 k t h; simp at h
  | cons t0 rest ih =>
    intro i0 k t hk hprev
    cases k with
    | zero =>
      simp only [List.getElem?_cons_zero, Option.some.injEq] at hk
      subst hk
      refine ⟨?_, ?_⟩
      · intro e he
        rw [Nat.add_zero] at he
        simp only [configLoop, Run.mem_andThen]
        exact Or.inl he
      · intro hnd
        rw [Nat.add_zero] at hnd ⊢
        simp only [configLoop]
        rw [Run.andThen_of_not_done _ hnd]
    | succ k1 =>
      have hd : (configStep env lib g name N stop i0 t0).status = .done := by
        simpa using hprev 0 t0 (by omega) (by simp)
      have := ih (i0 + 1) k1 t (by simpa using hk) (by
        intro k2 t2 hk2 ht2
        have := hprev (k2 + 1) t2 (by omega) (by simpa using ht2)
        rwa [show i0 + (k2 + 1) = i0 + 1 + k2 by omega] at this)
      rw [show i0 + 1 + k1 = i0 + (k1 + 1) by omega] at this
      refine ⟨?_, ?_⟩
      · intro e he
        simp only [configLoop, Run.mem_andThen]
        exact Or.inr ⟨hd, this.1 e he⟩
      · intro hnd
        simp only [configLoop, Run.andThen_status, hd, if_true]
        exact this.2 hnd

theorem configLoop_not_panicked (env : Env) (lib : StatsLib) (g : Globals) (name : String) :
    ∀ (ts : List T) (i0 : Nat) (m : String),
      (configLoop env lib g name nTimes stopOnSuccess i0 ts).status ≠ .panicked m := by
  intro ts
  induction ts with
  | nil => intro i0 m; simp [configLoop]
  | cons t rest ih =>
    intro i0 m
    simp only [configLoop, Run.andThen_status]
    split
    · exact ih _ m
    · exact configStep_not_panicked env lib g name i0 t m

/-- When the loop runs to its end, its attempts and clean-ups are: for each position in
turn, one attempt and then one clean-up. -/
theorem skeleton_configLoop_done (env : Env) (lib : StatsLib) (g : Globals)
    (name : String) :
    ∀ (ts : List T) (i0 : Nat),
      (configLoop env lib g name nTimes stopOnSuccess i0 ts).status = .done →
      skeleton (configLoop env lib g name nTimes stopOnSuccess i0 ts).trace =
        (List.range' i0 ts.length).flatMap fun i => [Mark.attempt i 0, Mark.cleanup] := by
  intro ts
  induction ts with
  | nil => intro i0 _; simp [configLoop, skeleton]
  | cons t rest ih =>
    intro i0 h
    simp only [configLoop] at h ⊢
    rw [Run.andThen_done_iff] at h
    rw [Run.andThen_trace]
    have h1 := skeleton_configStep_done env lib g name i0 t h.1
    have h2 := ih (i0 + 1) h.2
    simp only [skeleton] at h1 h2 ⊢
    simp [h.1, List.filterMap_append, h1, h2, List.range'_succ]

/-- When the body for position `i0 + k` is reached and does not run to its end, the
attempts and clean-ups of the loop are those of the positions before it, one attempt and
one clean-up each, and then those of that body: nothing follows. -/
theorem skeleton_configLoop_stops (env : Env) (lib : StatsLib) (g : Globals)
    (name : String) :
    ∀ (ts : List T) (i0 k : Nat) (t : T), ts[k]? = some t →
      (∀ k1 t1, k1 < k → ts[k1]? = some t1 →
        (configStep env lib g name nTimes stopOnSuccess (i0 + k1) t1).status = .done) →
      (configStep env lib g name nTimes stopOnSuccess (i0 + k) t).status ≠ .done →
      skeleton (configLoop env lib g name nTimes stopOnSuccess i0 ts).trace =
        ((List.range' i0 k).flatMap fun i => [Mark.attempt i 0, Mark.cleanup]) ++
          skeleton (configStep env lib g name nTimes stopOnSuccess (i0 + k) t).trace := by
  intro ts
  induction ts with
  | nil => intro i0 k t h; simp at h
  | cons t0 rest ih =>
    intro i0 k t hk hprev hnd
    cases k with
    | zero =>
      simp only [List.getElem?_cons_zero, Option.some.injEq] at hk
      subst hk
      rw [Nat.add_zero] at hnd ⊢
      simp only [configLoop]
      rw [Run.andThen_of_not_done _ hnd]
      simp
    | succ k1 =>
      have hd : (configStep env lib g name nTimes stopOnSuccess i0 t0).status = .done := by
        simpa using hprev 0 t0 (by omega) (by simp)
      have h1 := skeleton_configStep_done env lib g name i0 t0 hd
      have h2 := ih (i0 + 1) k1 t (by simpa using hk)
        (by
          intro k2 t2 hk2 ht2
          have := hprev (k2 + 1) t2 (by omega) (by simpa using ht2)
          rwa [show i0 + (k2 + 1) = i0 + 1 + k2 by omega] at this)
        (by rwa [show i0 + 1 + k1 = i0 + (k1 + 1) by omega])
      rw [show i0 + 1 + k1 = i0 + (k1 + 1) by omega] at h2
      simp only [configLoop]
      rw [Run.andThen_of_done _ hd]
      simp only [skeleton, List.filterMap_append] at h1 h2 ⊢
      rw [h1, h2]
      simp [List.range'_succ]

/-! ## Files -/

theorem fileContentFrom_eq (p : String) :
    ∀ (tr : List Effect) (c : List Written), (∀ e ∈ tr, e ≠ .openTrunc p) →
      fileContentFrom p c tr = c ++ tr.filterMap (Effect.writtenTo p) := by
  intro tr
  induction tr with
  | nil => intro c _; simp [fileContentFrom]
  | cons e rest ih =>
    intro c h
    have hr : ∀ e ∈ rest, e ≠ .openTrunc p := fun e he => h e (List.mem_cons_of_mem _ he)
    cases e with
    | openTrunc q =>
      have hq : q ≠ p := by
        intro hqp
        exact h (.openTrunc q) (List.mem_cons_self _ _) (by rw [hqp])
      simp [fileContentFrom, hq, ih _ hr, Effect.writtenTo]
    | write q w =>
      by_cases hq : q = p
      · simp [fileContentFrom, hq, ih _ hr, Effect.writtenTo]
      · simp [fileContentFrom, hq, ih _ hr, Effect.writtenTo]
    | _ => simp [fileContentFrom, ih _ hr, Effect.writtenTo]

theorem rowsWritten_append (p : String) (a b : List Effect) :
    rowsWritten p (a ++ b) = rowsWritten p a ++ rowsWritten p b := by
  simp [rowsWritten, dataRows, List.filterMap_append]

theorem rowsWritten_eq_nil (p : String) (tr : List Effect)
    (h : ∀ e ∈ tr, ∀ j b, e ≠ .write p (.row j b)) : rowsWritten p tr = [] := by
  induction tr with
  | nil => rfl
  | cons e rest ih =>
    have hr := ih (fun e he => h e (List.mem_cons_of_mem _ he))
    have he := h e (List.mem_cons_self _ _)
    rw [show e :: rest = [e] ++ rest from rfl, rowsWritten_append, hr, List.append_nil]
    cases e with
    | write q w =>
      by_cases hq : q = p
      · subst hq
        cases w with
        | row j b => exact absurd rfl (he j b)
        | header b => simp [rowsWritten, dataRows, Effect.writtenTo, Written.rowIndex]
        | times j b => simp [rowsWritten, dataRows, Effect.writtenTo, Written.rowIndex]
      · simp [rowsWritten, dataRows, Effect.writtenTo, hq]
    | _ => simp [rowsWritten, dataRows, Effect.writtenTo]

theorem mem_rowsWritten {p : String} {tr : List Effect} {j : Nat} :
    j ∈ rowsWritten p tr ↔ ∃ b, Effect.write p (.row j b) ∈ tr := by
  simp only [rowsWritten, dataRows, List.mem_filterMap]
  constructor
  · rintro ⟨w, ⟨e, he, hw⟩, hj⟩
    cases e with
    | write q w1 =>
      by_cases hq : q = p
      · subst hq
        simp only [Effect.writtenTo, if_true, Option.some.injEq] at hw
        subst hw
        cases w1 with
        | row j1 b =>
          simp only [Written.rowIndex, Option.some.injEq] at hj
          subst hj
          exact ⟨b, he⟩
        | header b => simp [Written.rowIndex] at hj
        | times j1 b => simp [Written.rowIndex] at hj
      · simp [Effect.writtenTo, hq] at hw
    | _ => simp [Effect.writtenTo] at hw
  · rintro ⟨b, h⟩
    exact ⟨.row j b, ⟨_, h, by simp [Effect.writtenTo]⟩, rfl⟩

theorem fileOps_cons_ok (env : Env) (op : FileOp) (e : Effect) (msg : String)
    (rest : List (FileOp × Effect × String)) (h : env.fileOpFails op = false) :
    fileOps env ((op, e, msg) :: rest) =
      ⟨e :: (fileOps env rest).trace, (fileOps env rest).status⟩ := by
  simp [fileOps, h, Run.andThen]

theorem rowsWritten_recordRuns (env : Env) (lib : StatsLib) (name : String) (i : Nat)
    (rs : RunStats) :
    rowsWritten (TestFile name) (recordRuns env lib name i [rs]).trace = [] ∨
      rowsWritten (TestFile name) (recordRuns env lib name i [rs]).trace = [i] := by
  by_cases h1 : env.fileOpFails (.writeRow i) = true
  · left
    simp [recordRuns, fileOps, h1, Run.andThen, rowsWritten, dataRows]
  · right
    simp only [recordRuns, List.length_singleton, one_ne_zero, if_false]
    rw [fileOps_cons_ok env _ _ _ _ (by simpa using h1), Run.andThen_trace]
    simp only
    rw [show ∀ (x : Effect) (l m : List Effect), x :: l ++ m = [x] ++ (l ++ m) from
      fun _ _ _ => rfl, rowsWritten_append, rowsWritten_append]
    have hA : rowsWritten (TestFile name)
        [Effect.write (TestFile name) (.row i (lib.CSV (lib.RunStatsAvg [rs])))] = [i] := by
      simp [rowsWritten, dataRows, Effect.writtenTo, Written.rowIndex]
    rw [hA, rowsWritten_eq_nil, rowsWritten_eq_nil]
    · rfl
    · intro e he j b
      split at he
      · simp only [List.mem_singleton] at he
        simp [he]
      · simp at he
    · intro e he j b
      have := mem_fileOps env _ he
      simp only [List.map_cons, List.map_nil, List.mem_cons, List.mem_singleton,
        List.not_mem_nil, or_false] at this
      rcases this with h | h | h | h <;> simp [h]

theorem rowsWritten_configStep (env : Env) (lib : StatsLib) (g : Globals) (name : String)
    (i : Nat) (t : T) :
    rowsWritten (TestFile name) (configStep env lib g name nTimes stopOnSuccess i t).trace = [] ∨
      rowsWritten (TestFile name)
        (configStep env lib g name nTimes stopOnSuccess i t).trace = [i] := by
  have hp : ∀ (l : List Effect), rowsWritten (TestFile name)
      (Effect.callRunTest i 0 t :: (RunTest g t (env.attempt i 0)).effects ++ l) =
        rowsWritten (TestFile name) l := by
    intro l
    rw [rowsWritten_append, rowsWritten_eq_nil, List.nil_append]
    intro e he j b
    simp only [List.mem_cons] at he
    rcases he with he | he
    · simp [he]
    · have := RunTest_effects_isProcess g t _ _ he
      intro h
      simp [h, Effect.isProcess] at this
  rcases configStep_cases env lib g name i t with
    ⟨msg, ho1, hS⟩ | ⟨rs1, err, ho1, hS⟩ | ⟨rs1, ho1, hS⟩
  · left
    rw [hS]
    have := hp []
    simp only [List.append_nil] at this
    rw [this]
    rfl
  · left
    rw [hS]
    simp only
    rw [hp]
    simp [rowsWritten, dataRows, Effect.writtenTo]
  · rw [hS]
    simp only
    rw [rowsWritten_append, hp]
    have : rowsWritten (TestFile name)
        [Effect.returnRunTest i 0 rs1 none, Effect.cleanup (cleanupArgs g)] = [] := by
      simp [rowsWritten, dataRows, Effect.writtenTo]
    rw [this, List.nil_append]
    exact rowsWritten_recordRuns env lib name i rs1

/-- The data rows the loop writes to the report carry increasing positions, none below
the start of the loop, and there are no more of them than configurations. -/
theorem rowsWritten_configLoop (env : Env) (lib : StatsLib) (g : Globals) (name : String) :
    ∀ (ts : List T) (i0 : Nat),
      (rowsWritten (TestFile name)
        (configLoop env lib g name nTimes stopOnSuccess i0 ts).trace).Pairwise (· < ·) ∧
      (∀ j ∈ rowsWritten (TestFile name)
        (configLoop env lib g name nTimes stopOnSuccess i0 ts).trace, i0 ≤ j) ∧
      (rowsWritten (TestFile name)
        (configLoop env lib g name nTimes stopOnSuccess i0 ts).trace).length ≤ ts.length := by
  intro ts
  induction ts with
  | nil => intro i0; simp [configLoop, rowsWritten, dataRows]
  | cons t rest ih =>
    intro i0
    obtain ⟨ih1, ih2, ih3⟩ := ih (i0 + 1)
    simp only [configLoop, Run.andThen_trace, rowsWritten_append]
    have hrest : ∃ l : List Nat,
        rowsWritten (TestFile name)
          (if (configStep env lib g name nTimes stopOnSuccess i0 t).status = .done then
            (configLoop env lib g name nTimes stopOnSuccess (i0 + 1) rest).trace
          else []) = l ∧ l.Pairwise (· < ·) ∧ (∀ j ∈ l, i0 + 1 ≤ j) ∧
            l.length ≤ rest.length := by
      split
      · exact ⟨_, rfl, ih1, ih2, ih3⟩
      · exact ⟨[], rfl, List.Pairwise.nil, by simp, by simp⟩
    obtain ⟨l, hl, hl1, hl2, hl3⟩ := hrest
    rw [hl]
    rcases rowsWritten_configStep env lib g name i0 t with h | h
    · rw [h]
      refine ⟨by simpa using hl1, ?_, ?_⟩
      · intro j hj
        have := hl2 j (by simpa using hj)
        omega
      · simp only [List.nil_append, List.length_cons]
        omega
    · rw [h]
      refine ⟨?_, ?_, ?_⟩
      · simp only [List.singleton_append, List.pairwise_cons]
        exact ⟨fun j hj => by have := hl2 j hj; omega, hl1⟩
      · intro j hj
        simp only [List.singleton_append, List.mem_cons] at hj
        rcases hj with hj | hj
        · omega
        · have := hl2 j hj
          omega
      · simp only [List.singleton_append, List.length_cons]
        omega

theorem configLoop_done_all (env : Env) (lib : StatsLib) (g : Globals) (name : String)
    (N : Nat) (stop : Bool) :
    ∀ (ts : List T) (i0 : Nat), (configLoop env lib g name N stop i0 ts).status = .done →
      ∀ k t, ts[k]? = some t →
        (configStep env lib g name N stop (i0 + k) t).status = .done := by
  intro ts
  induction ts with
  | nil => intro i0 _ k t h; simp at h
  | cons t0 rest ih =>
    intro i0 h k t hk
    simp only [configLoop] at h
    rw [Run.andThen_done_iff] at h
    cases k with
    | zero =>
      simp only [List.getElem?_cons_zero, Option.some.injEq] at hk
      subst hk
      simpa using h.1
    | succ k1 =>
      rw [show i0 + (k1 + 1) = i0 + 1 + k1 by omega]
      exact ih (i0 + 1) h.2 k1 t (by simpa using hk)

/-! ## The whole of `RunTests` -/

/-- Either `RunTests` stops before its second loop, having performed a proper initial
part of `headEffects` (and it panics only on the empty matrix), or the matrix is not
empty and it performs `headEffects` and then the loop over the overwritten matrix. -/
theorem RunTests_cases (env : Env) (lib : StatsLib) (g : Globals) (name : String)
    (ts : List T) :
    ((RunTests env lib g name ts).status ≠ .done ∧
      ((RunTests env lib g name ts).trace = [] ∨
        (RunTests env lib g name ts).trace = [.openTrunc (TestFile name)] ∨
        (RunTests env lib g name ts).trace =
          [.openTrunc (TestFile name),
           .write (TestFile name) (.header (lib.CSVHeader RunStats.zero))]) ∧
      ((∀ msg, (RunTests env lib g name ts).status ≠ .fatal msg) → ts = [])) ∨
    (ts ≠ [] ∧
      (RunTests env lib g name ts).trace = headEffects lib name ++
        (configLoop env lib g name nTimes stopOnSuccess 0 (ts.map (overwrite g))).trace ∧
      (RunTests env lib g name ts).status =
        (configLoop env lib g name nTimes stopOnSuccess 0 (ts.map (overwrite g))).status) := by
  by_cases h1 : env.fileOpFails .openReport = true
  · left
    simp [RunTests, fileOps, h1, Run.andThen]
  · cases ts with
    | nil =>
      left
      simp [RunTests, fileOps, h1, Run.andThen]
    | cons t rest =>
      by_cases h2 : env.fileOpFails .writeHeader = true
      · left
        simp [RunTests, fileOps, h1, h2, Run.andThen, List.replicate_succ]
      · by_cases h3 : env.fileOpFails .syncHeader = true
        · left
          simp [RunTests, fileOps, h1, h2, h3, Run.andThen, List.replicate_succ]
        · right
          simp [RunTests, fileOps, h1, h2, h3, Run.andThen, List.replicate_succ,
            headEffects]

theorem RunTests_of_ok (env : Env) (hio : ∀ op, env.fileOpFails op = false)
    (lib : StatsLib) (g : Globals) (name : String) (ts : List T) (hne : ts ≠ []) :
    (RunTests env lib g name ts).trace = headEffects lib name ++
        (configLoop env lib g name nTimes stopOnSuccess 0 (ts.map (overwrite g))).trace ∧
      (RunTests env lib g name ts).status =
        (configLoop env lib g name nTimes stopOnSuccess 0 (ts.map (overwrite g))).status := by
  cases ts with
  | nil => exact absurd rfl hne
  | cons t rest =>
    simp [RunTests, fileOps, hio, Run.andThen, List.replicate_succ, headEffects]

/-- Every effect of `RunTests` is one of `headEffects` or an effect of the body of the
loop for some position `k`, run on the overwritten configuration; that body was reached,
so all its effects are in the trace and every body before it ran to its end. -/
theorem mem_RunTests (env : Env) (lib : StatsLib) (g : Globals) (name : String)
    (ts : List T) (e : Effect) (h : e ∈ (RunTests env lib g name ts).trace) :
    e ∈ headEffects lib name ∨
      ∃ k t, ts[k]? = some t ∧
        e ∈ (configStep env lib g name nTimes stopOnSuccess k (overwrite g t)).trace ∧
        (∀ e1 ∈ (configStep env lib g name nTimes stopOnSuccess k (overwrite g t)).trace,
          e1 ∈ (RunTests env lib g name ts).trace) ∧
        (∀ k1 t1, k1 < k → ts[k1]? = some t1 →
          (configStep env lib g name nTimes stopOnSuccess k1 (overwrite g t1)).status =
            .done) := by
  rcases RunTests_cases env lib g name ts with ⟨_, hA, _⟩ | ⟨_, hB, _⟩
  · left
    rcases hA with hA | hA | hA <;> rw [hA] at h <;> simp [headEffects] at h ⊢ <;> tauto
  · rw [hB, List.mem_append] at h
    rcases h with h | h
    · exact Or.inl h
    · right
      obtain ⟨k, t1, hk, he, hsub, hprev⟩ := mem_configLoop env lib g name _ _ _ 0 e h
      rw [List.getElem?_map] at hk
      obtain ⟨t, ht, rfl⟩ := Option.map_eq_some'.mp hk
      rw [Nat.zero_add] at he hsub
      refine ⟨k, t, ht, he, ?_, ?_⟩
      · intro e1 h1
        rw [hB, List.mem_append]
        exact Or.inr (hsub e1 h1)
      · intro k1 t1 hk1 ht1
        have := hprev k1 (overwrite g t1) hk1 (by rw [List.getElem?_map, ht1]; rfl)
        rwa [Nat.zero_add] at this

theorem not_openTrunc_report_configLoop (env : Env) (lib : StatsLib) (g : Globals)
    (name : String) (ts : List T) (i0 : Nat) :
    ∀ e ∈ (configLoop env lib g name nTimes stopOnSuccess i0 ts).trace,
      e ≠ .openTrunc (TestFile name) := by
  intro e he hee
  obtain ⟨k, t, _, hk, _, _⟩ := mem_configLoop env lib g name _ _ ts i0 e he
  obtain ⟨rs, _, hr⟩ := file_mem_configStep env lib g name _ t e hk (Or.inr ⟨_, hee⟩)
  subst hee
  simp only [recordEffects, List.mem_cons, Effect.openTrunc.injEq, List.mem_singleton,
    List.not_mem_nil, or_false, false_or] at hr
  simp at hr
  exact latencyFile_ne_TestFile name _ hr.symm

/-- The report file holds what `RunTests` wrote to it: it is opened once, first. -/
theorem fileContent_RunTests (env : Env) (lib : StatsLib) (g : Globals) (name : String)
    (ts : List T) :
    fileContent (TestFile name) (RunTests env lib g name ts).trace =
      (RunTests env lib g name ts).trace.filterMap (Effect.writtenTo (TestFile name)) := by
  rcases RunTests_cases env lib g name ts with ⟨_, hA, _⟩ | ⟨_, hB, _⟩
  · rcases hA with hA | hA | hA <;> rw [hA] <;>
      simp [fileContent, fileContentFrom, Effect.writtenTo]
  · rw [hB]
    show fileContent (TestFile name) (Effect.openTrunc (TestFile name) ::
      Effect.write (TestFile name) (.header (lib.CSVHeader RunStats.zero)) ::
      Effect.sync (TestFile name) ::
      (configLoop env lib g name nTimes stopOnSuccess 0 (ts.map (overwrite g))).trace) = _
    simp only [fileContent, fileContentFrom, if_true, List.nil_append]
    rw [fileContentFrom_eq _ _ _ (not_openTrunc_report_configLoop env lib g name _ 0)]
    simp [Effect.writtenTo, headEffects]

theorem rowWritten_iff (env : Env) (lib : StatsLib) (g : Globals) (name : String)
    (ts : List T) (i : Nat) :
    rowWritten name (RunTests env lib g name ts).trace i ↔
      ∃ b, Effect.write (TestFile name) (.row i b) ∈ (RunTests env lib g name ts).trace := by
  unfold rowWritten
  rw [fileContent_RunTests]
  exact mem_rowsWritten

theorem attemptSucceeded_iff (trace : List Effect) (i : Nat) :
    attemptSucceeded trace i ↔ ∃ r rs, Effect.returnRunTest i r rs none ∈ trace := by
  unfold attemptSucceeded
  constructor
  · rintro ⟨e, he, hs⟩
    cases e with
    | returnRunTest j r rs err =>
      cases err with
      | none =>
        simp only [Effect.isSuccessAt, decide_eq_true_eq] at hs
        subst hs
        exact ⟨r, rs, he⟩
      | some x => simp [Effect.isSuccessAt] at hs
    | _ => simp [Effect.isSuccessAt] at hs
  · rintro ⟨r, rs, h⟩
    exact ⟨_, h, by simp [Effect.isSuccessAt]⟩

theorem RunTest_returned_none (g : Globals) (t : T) (ev : AttemptEvent) (rs : RunStats)
    (h : (RunTest g t ev).outcome = .returned rs none) : ev.succeeds = true := by
  cases ev with
  | startFails => simp [RunTest] at h
  | deadlineFirst => simp [RunTest] at h
  | monitorFirst rs1 =>
    simp only [RunTest, RunTestOutcome.returned.injEq] at h
    rw [badData_eq_invalidMeasurement] at h
    cases hv : invalidMeasurement rs1 with
    | true => rw [hv] at h; simp at h
    | false => simp [AttemptEvent.succeeds, hv]

/-- A successful return for position `i` in the trace of `RunTests` is the return of the
one attempt for `i`, whose event lets it succeed; the body for `i` was reached. -/
theorem success_mem_RunTests (env : Env) (lib : StatsLib) (g : Globals) (name : String)
    (ts : List T) (i r : Nat) (rs : RunStats)
    (h : Effect.returnRunTest i r rs none ∈ (RunTests env lib g name ts).trace) :
    r = 0 ∧ ∃ t, ts[i]? = some t ∧
      (RunTest g (overwrite g t) (env.attempt i 0)).outcome = .returned rs none ∧
      ∀ e1 ∈ (configStep env lib g name nTimes stopOnSuccess i (overwrite g t)).trace,
        e1 ∈ (RunTests env lib g name ts).trace := by
  rcases mem_RunTests env lib g name ts _ h with h1 | ⟨k, t, hk, he, hsub, _⟩
  · simp [headEffects] at h1
  · obtain ⟨rfl, rfl, ho⟩ := return_mem_configStep env lib g name k _ _ _ _ _ he
    exact ⟨rfl, t, hk, ho, hsub⟩

/-- A row or a latency file in the trace of `RunTests` comes after a successful return of
the attempt for its position. -/
theorem file_mem_RunTests (env : Env) (lib : StatsLib) (g : Globals) (name : String)
    (ts : List T) (i : Nat)
    (h : (∃ b, Effect.write (TestFile name) (.row i b) ∈ (RunTests env lib g name ts).trace) ∨
      Effect.openTrunc (latencyFile name i) ∈ (RunTests env lib g name ts).trace) :
    ∃ rs, Effect.returnRunTest i 0 rs none ∈ (RunTests env lib g name ts).trace := by
  rcases h with ⟨b, h⟩ | h
  · rcases mem_RunTests env lib g name ts _ h with h1 | ⟨k, t, hk, he, hsub, _⟩
    · simp [headEffects] at h1
    · obtain ⟨rs, hr, hrec⟩ :=
        file_mem_configStep env lib g name k _ _ he (Or.inl ⟨_, _, rfl⟩)
      have hik : i = k := by
        simp only [recordEffects, List.mem_cons, List.mem_singleton, List.not_mem_nil,
          or_false] at hrec
        rcases hrec with h1 | h1 | h1 | h1 | h1 | h1
        · simp only [Effect.write.injEq, Written.row.injEq, true_and] at h1
          exact h1.1
        · simp at h1
        · simp at h1
        · simp at h1
        · simp at h1
        · simp at h1
      subst hik
      exact ⟨rs, hsub _ hr⟩
  · rcases mem_RunTests env lib g name ts _ h with h1 | ⟨k, t, hk, he, hsub, _⟩
    · simp only [headEffects, List.mem_cons, Effect.openTrunc.injEq, List.mem_singleton,
        List.not_mem_nil, or_false] at h1
      simp at h1
      exact absurd h1 (latencyFile_ne_TestFile name i)
    · obtain ⟨rs, hr, hrec⟩ :=
        file_mem_configStep env lib g name k _ _ he (Or.inr ⟨_, rfl⟩)
      have hik : i = k := by
        simp only [recordEffects, List.mem_cons, List.mem_singleton, List.not_mem_nil,
          or_false] at hrec
        rcases hrec with h1 | h1 | h1 | h1 | h1 | h1
        · simp at h1
        · simp at h1
        · simp only [Effect.openTrunc.injEq] at h1
          exact latencyFile_injective h1
        · simp at h1
        · simp at h1
        · simp at h1
      subst hik
      exact ⟨rs, hsub _ hr⟩

/-! ## Claims about `RunTests` -/

/-- C2, the code at the failing input.  On the empty matrix `rs` is empty, so `rs[0]`
panics with an index error right after the report file was opened and truncated:
`RunTests` does not finish and the report file holds no header row. -/
theorem RunTests_empty_matrix (env : Env) (lib : StatsLib) (g : Globals) (name : String) :
    (RunTests env lib g name []).status =
        (if env.fileOpFails .openReport then Status.fatal "error opening test file:"
         else Status.panicked "index out of range") ∧
      (RunTests env lib g name []).trace =
        (if env.fileOpFails .openReport then [] else [.openTrunc (TestFile name)]) ∧
      headerRows (fileContent (TestFile name) (RunTests env lib g name []).trace) = 0 := by
  by_cases h : env.fileOpFails .openReport = true
  · simp [RunTests, fileOps, h, Run.andThen, fileContent, fileContentFrom, headerRows]
  · simp [RunTests, fileOps, h, Run.andThen, fileContent, fileContentFrom, headerRows]

/-- On a matrix that is not empty the report has the promised shape: never more data
rows than configurations, and exactly one header row once `RunTests` has finished. -/
theorem RunTests_report_shape (env : Env) (lib : StatsLib) (g : Globals) (name : String)
    (ts : List T) :
    (dataRows (fileContent (TestFile name) (RunTests env lib g name ts).trace)).length ≤
        ts.length ∧
      ((RunTests env lib g name ts).status = .done →
        headerRows (fileContent (TestFile name) (RunTests env lib g name ts).trace) = 1) := by
  rw [fileContent_RunTests]
  rcases RunTests_cases env lib g name ts with ⟨hnd, hA, _⟩ | ⟨_, hB, _⟩
  · refine ⟨?_, fun h => absurd h hnd⟩
    rcases hA with hA | hA | hA <;> rw [hA] <;> simp [dataRows, Effect.writtenTo, Written.rowIndex]
  · rw [hB]
    have hrows := (rowsWritten_configLoop env lib g name (ts.map (overwrite g)) 0).2.2
    constructor
    · have : dataRows ((headEffects lib name ++
          (configLoop env lib g name nTimes stopOnSuccess 0 (ts.map (overwrite g))).trace).filterMap
            (Effect.writtenTo (TestFile name))) =
          rowsWritten (TestFile name)
            (configLoop env lib g name nTimes stopOnSuccess 0 (ts.map (overwrite g))).trace := by
        simp [rowsWritten, dataRows, headEffects, List.filterMap_append, Effect.writtenTo,
          Written.rowIndex]
      rw [this]
      simpa using hrows
    · intro _
      simp only [headerRows, headEffects, List.cons_append, List.nil_append,
        List.filterMap_cons, Effect.writtenTo, if_true]
      rw [List.countP_cons_of_pos _ _ (by rfl), List.countP_eq_zero.mpr]
      intro w hw
      simp only [List.mem_filterMap] at hw
      obtain ⟨e, he, hew⟩ := hw
      obtain ⟨k, t, _, hk, _, _⟩ := mem_configLoop env lib g name _ _ _ 0 e he
      cases e with
      | write q w1 =>
        obtain ⟨rs, _, hrec⟩ :=
          file_mem_configStep env lib g name _ t _ hk (Or.inl ⟨_, _, rfl⟩)
        by_cases hq : q = TestFile name
        · simp only [Effect.writtenTo, hq, if_true, Option.some.injEq] at hew
          subst hew
          simp only [recordEffects, List.mem_cons, List.mem_singleton, List.not_mem_nil,
            or_false] at hrec
          rcases hrec with h1 | h1 | h1 | h1 | h1 | h1 <;>
            simp at h1 <;> simp [h1.2, Written.isHeader]
        · simp [Effect.writtenTo, hq] at hew
      | _ => simp [Effect.writtenTo] at hew

/-- C3, counterexample.  On `HostsTest`, when the attempt for position 0 returns without
error and the `os.OpenFile` of its latency file then fails, the row of position 0 is in
the report, the companion file is not created, and the run ends in `log.Fatal`: the
attempt returned without error, yet row and companion file are not both there. -/
theorem RunTests_success_without_companion :
    attemptSucceeded
        (RunTests envLatencyOpenFails sampleLib Globals.initial "sign_test" HostsTest).trace 0 ∧
      rowWritten "sign_test"
        (RunTests envLatencyOpenFails sampleLib Globals.initial "sign_test" HostsTest).trace 0 ∧
      ¬ companionCreated "sign_test"
        (RunTests envLatencyOpenFails sampleLib Globals.initial "sign_test" HostsTest).trace 0 ∧
      (RunTests envLatencyOpenFails sampleLib Globals.initial "sign_test" HostsTest).status =
        .fatal "error opening test file:" := by
  unfold attemptSucceeded rowWritten companionCreated
  decide

/-- C3, amended.  For every matrix and every position `i`: a data row for `i` in the
report, or the companion latency file of `i`, is there only if an attempt for `i` returned
without error; when no file operation fails, the row is written and the companion file created
if and only if an attempt for `i` returned without error; an attempt for `i` returns
without error only for a position of the matrix whose attempt gets a valid measurement
in time; when every attempt for `i` fails, neither row nor file is written; and the rows
of the report are in increasing order of their position. -/
theorem RunTests_row_iff_success (env : Env) (lib : StatsLib) (g : Globals) (name : String)
    (ts : List T) (i : Nat) :
    (rowWritten name (RunTests env lib g name ts).trace i ∨
        companionCreated name (RunTests env lib g name ts).trace i →
      attemptSucceeded (RunTests env lib g name ts).trace i) ∧
    ((∀ op, env.fileOpFails op = false) →
      ((rowWritten name (RunTests env lib g name ts).trace i ∧
          companionCreated name (RunTests env lib g name ts).trace i) ↔
        attemptSucceeded (RunTests env lib g name ts).trace i)) ∧
    (attemptSucceeded (RunTests env lib g name ts).trace i →
      i < ts.length ∧ (env.attempt i 0).succeeds = true) ∧
    ((∀ r, (env.attempt i r).succeeds = false) →
      ¬ rowWritten name (RunTests env lib g name ts).trace i ∧
        ¬ companionCreated name (RunTests env lib g name ts).trace i) ∧
    (dataRows (fileContent (TestFile name) (RunTests env lib g name ts).trace)).Pairwise
      (· < ·) := by
  have h1 : rowWritten name (RunTests env lib g name ts).trace i ∨
        companionCreated name (RunTests env lib g name ts).trace i →
      attemptSucceeded (RunTests env lib g name ts).trace i := by
    intro h
    rw [rowWritten_iff] at h
    obtain ⟨rs, hrs⟩ := file_mem_RunTests env lib g name ts i h
    exact (attemptSucceeded_iff _ _).mpr ⟨0, rs, hrs⟩
  have h2 : attemptSucceeded (RunTests env lib g name ts).trace i →
      i < ts.length ∧ (env.attempt i 0).succeeds = true := by
    intro h
    obtain ⟨r, rs, hr⟩ := (attemptSucceeded_iff _ _).mp h
    obtain ⟨_, t, ht, ho, _⟩ := success_mem_RunTests env lib g name ts i r rs hr
    refine ⟨?_, RunTest_returned_none g _ _ rs ho⟩
    by_contra hlt
    rw [List.getElem?_eq_none (not_lt.mp hlt)] at ht
    exact absurd ht (by simp)
  refine ⟨h1, ?_, h2, ?_, ?_⟩
  · intro hio
    constructor
    · intro h
      exact h1 (Or.inl h.1)
    · intro h
      obtain ⟨r, rs, hr⟩ := (attemptSucceeded_iff _ _).mp h
      obtain ⟨_, t, _, ho, hsub⟩ := success_mem_RunTests env lib g name ts i r rs hr
      have hrec := configStep_recorded_of_ok env hio lib g name i (overwrite g t) rs ho
      constructor
      · rw [rowWritten_iff]
        exact ⟨lib.CSV (lib.RunStatsAvg [rs]), hsub _ (hrec _ (by simp [recordEffects]))⟩
      · exact hsub _ (hrec _ (by simp [recordEffects]))
  · intro hfail
    have hns : ¬ attemptSucceeded (RunTests env lib g name ts).trace i := by
      intro h
      have := (h2 h).2
      rw [hfail 0] at this
      exact absurd this (by decide)
    exact ⟨fun h => hns (h1 (Or.inl h)), fun h => hns (h1 (Or.inr h))⟩
  · rw [fileContent_RunTests]
    rcases RunTests_cases env lib g name ts with ⟨_, hA, _⟩ | ⟨_, hB, _⟩
    · rcases hA with hA | hA | hA <;> rw [hA] <;>
        simp [dataRows, Effect.writtenTo, Written.rowIndex]
    · rw [hB]
      have hrows := (rowsWritten_configLoop env lib g name (ts.map (overwrite g)) 0).1
      have : dataRows ((headEffects lib name ++
          (configLoop env lib g name nTimes stopOnSuccess 0 (ts.map (overwrite g))).trace).filterMap
            (Effect.writtenTo (TestFile name))) =
          rowsWritten (TestFile name)
            (configLoop env lib g name nTimes stopOnSuccess 0 (ts.map (overwrite g))).trace := by
        simp [rowsWritten, dataRows, headEffects, List.filterMap_append, Effect.writtenTo,
          Written.rowIndex]
      rw [this]
      exact hrows

/-- C3, amended, on `HostsTest` when the attempt for position 0 succeeds and the attempt for
position 1 times out: the report holds the row of position 0 only. -/
theorem RunTests_row_iff_success_witness :
    ((rowWritten "sign_test"
          (RunTests envFirstSucceeds sampleLib Globals.initial "sign_test" HostsTest).trace 0 ∧
        companionCreated "sign_test"
          (RunTests envFirstSucceeds sampleLib Globals.initial "sign_test" HostsTest).trace 0) ↔
      attemptSucceeded
        (RunTests envFirstSucceeds sampleLib Globals.initial "sign_test" HostsTest).trace 0) ∧
    (¬ rowWritten "sign_test"
          (RunTests envFirstSucceeds sampleLib Globals.initial "sign_test" HostsTest).trace 1 ∧
      ¬ companionCreated "sign_test"
          (RunTests envFirstSucceeds sampleLib Globals.initial "sign_test" HostsTest).trace 1) ∧
    dataRows (fileContent (TestFile "sign_test")
      (RunTests envFirstSucceeds sampleLib Globals.initial "sign_test" HostsTest).trace) = [0] :=
  ⟨(RunTests_row_iff_success envFirstSucceeds sampleLib Globals.initial "sign_test"
      HostsTest 0).2.1 (fun _ => rfl),
   (RunTests_row_iff_success envFirstSucceeds sampleLib Globals.initial "sign_test"
      HostsTest 1).2.2.2.1 (fun _ => rfl),
   by decide⟩

/-- C4, counterexample.  On `HostsTest`, when `cmd.Start` fails for position 0, the run
ends in `log.Fatal`: the only attempt made is the one for position 0, no clean-up follows
it and position 1 is never attempted. -/
theorem RunTests_start_failure_stops_run :
    (RunTests envStartFails sampleLib Globals.initial "sign_test" HostsTest).status =
        .fatal "cmd.Start" ∧
      skeleton (RunTests envStartFails sampleLib Globals.initial "sign_test" HostsTest).trace =
        [.attempt 0 0] := by
  decide

/-- C4, amended.  A failure to start the subprocess is fatal: for every matrix and every
position `i`, when `cmd.Start` fails in `RunTest` for `ts[i]`, `RunTests` does not run to
its end, `RunTest` does not return to it for position `i`, and no configuration at a
position after `i` is attempted; when no file operation fails and no earlier attempt
failed to start, the attempt for `i` is made, the run ends in the `log.Fatal` of
`RunTest`, and its attempts and clean-ups are one attempt and one clean-up for each
position before `i` and then the attempt for `i`, with no clean-up after it. -/
theorem RunTests_start_failure_is_fatal (env : Env) (lib : StatsLib) (g : Globals)
    (name : String) (ts : List T) (i : Nat) (hi : i < ts.length)
    (hfail : env.attempt i 0 = .startFails) :
    (RunTests env lib g name ts).status ≠ .done ∧
    (∀ r rs err, Effect.returnRunTest i r rs err ∉ (RunTests env lib g name ts).trace) ∧
    (∀ j r t, i < j → Effect.callRunTest j r t ∉ (RunTests env lib g name ts).trace) ∧
    ((∀ op, env.fileOpFails op = false) → (∀ j, j < i → env.attempt j 0 ≠ .startFails) →
      (RunTests env lib g name ts).status = .fatal "cmd.Start" ∧
        Effect.callRunTest i 0 (overwrite g (ts.get ⟨i, hi⟩)) ∈
          (RunTests env lib g name ts).trace ∧
        skeleton (RunTests env lib g name ts).trace =
          ((List.range i).flatMap fun j => [Mark.attempt j 0, Mark.cleanup]) ++
            [Mark.attempt i 0]) := by
  have hget : ts[i]? = some (ts.get ⟨i, hi⟩) := by simp [List.getElem?_eq_getElem hi]
  have hstep := configStep_startFails env lib g name i (overwrite g (ts.get ⟨i, hi⟩)) hfail
  refine ⟨?_, ?_, ?_, ?_⟩
  · rcases RunTests_cases env lib g name ts with ⟨hnd, _, _⟩ | ⟨_, _, hB⟩
    · exact hnd
    · intro hd
      rw [hB] at hd
      have := configLoop_done_all env lib g name _ _ _ 0 hd i
        (overwrite g (ts.get ⟨i, hi⟩)) (by rw [List.getElem?_map, hget]; rfl)
      rw [Nat.zero_add, hstep] at this
      exact absurd this (by simp)
  · intro r rs err h
    rcases mem_RunTests env lib g name ts _ h with h1 | ⟨k, t, hk, he, _, _⟩
    · simp [headEffects] at h1
    · obtain ⟨rfl, _, ho⟩ := return_mem_configStep env lib g name k _ _ _ _ _ he
      rw [hfail] at ho
      simp [RunTest] at ho
  · intro j r t hij h
    rcases mem_RunTests env lib g name ts _ h with h1 | ⟨k, t1, hk, he, _, hprev⟩
    · simp [headEffects] at h1
    · obtain ⟨rfl, _, _⟩ := call_mem_configStep env lib g name k _ _ _ _ he
      have := hprev i _ hij hget
      rw [hstep] at this
      exact absurd this (by simp)
  · intro hio hbefore
    have hne : ts ≠ [] := by
      intro h0
      rw [h0] at hi
      exact absurd hi (by simp)
    obtain ⟨htr, hst⟩ := RunTests_of_ok env hio lib g name ts hne
    have hreach := configLoop_reaches env lib g name nTimes stopOnSuccess
      (ts.map (overwrite g)) 0 i (overwrite g (ts.get ⟨i, hi⟩))
      (by rw [List.getElem?_map, hget]; rfl)
      (by
        intro k1 t1 hk1 _
        rw [Nat.zero_add]
        exact configStep_done_of_ok env hio lib g name k1 t1 (hbefore k1 hk1))
    have hsk := skeleton_configLoop_stops env lib g name
      (ts.map (overwrite g)) 0 i (overwrite g (ts.get ⟨i, hi⟩))
      (by rw [List.getElem?_map, hget]; rfl)
      (by
        intro k1 t1 hk1 _
        rw [Nat.zero_add]
        exact configStep_done_of_ok env hio lib g name k1 t1 (hbefore k1 hk1))
      (by rw [Nat.zero_add, hstep]; simp)
    rw [Nat.zero_add, hstep] at hreach hsk
    refine ⟨?_, ?_, ?_⟩
    · rw [hst]
      exact hreach.2 (by simp)
    · rw [htr, List.mem_append]
      exact Or.inr (hreach.1 _ (by simp))
    · rw [htr]
      simp only [skeleton, List.filterMap_append] at hsk ⊢
      rw [hsk, List.range_eq_range']
      simp [headEffects, Effect.mark]

/-- C4, amended, on `FailureTests` with a start failure at position 1, after a timeout at
position 0. -/
theorem RunTests_start_failure_is_fatal_witness :
    (RunTests envStartFailsSecond sampleLib Globals.initial "failure_test"
        FailureTests).status = .fatal "cmd.Start" ∧
      skeleton (RunTests envStartFailsSecond sampleLib Globals.initial "failure_test"
        FailureTests).trace = [.attempt 0 0, .cleanup, .attempt 1 0] ∧
      ∀ j r t, 1 < j → Effect.callRunTest j r t ∉
        (RunTests envStartFailsSecond sampleLib Globals.initial "failure_test"
          FailureTests).trace :=
  have h := RunTests_start_failure_is_fatal envStartFailsSecond sampleLib Globals.initial
    "failure_test" FailureTests 1 (by decide) rfl
  have h4 := h.2.2.2 (fun _ => rfl) (fun j hj => by
    have : j = 0 := by omega
    subst this
    decide)
  ⟨h4.1, h4.2.2, h.2.2.1⟩

/-- C5, counterexample.  With the initial globals (`machines = 3`, `bf = 2`, `hpn = 1`),
`RunTests` on `FailureTests`, whose first configuration has `hpn = 64` and `bf = 16`,
calls `RunTest` for position 0 with `hpn = 1` and `bf = 2`, launches the subprocess with
`-hpn=1` and `-bf=2`, and leaves the slice of the caller changed. -/
theorem RunTests_overwrites_matrix :
    Effect.callRunTest 0 0 ⟨3, 1, 2, 30, 50, 0, 0, 0, false, "stamp"⟩ ∈
        (RunTests envTimeout sampleLib Globals.initial "failure_test" FailureTests).trace ∧
      Effect.start ["./deploy2deter", "-nmachs=3", "-hpn=1", "-nmsgs=-1", "-bf=2", "-rate=30",
          "-rounds=50", "-debug=true", "-failures=0", "-rfail=0", "-ffail=0",
          "-test_connect=false", "-app=stamp", "-user=ineiti", "-host=users.deterlab.net",
          "-nloggers=3"] ∈
        (RunTests envTimeout sampleLib Globals.initial "failure_test" FailureTests).trace ∧
      FailureTests.head? = some ⟨3, 64, 16, 30, 50, 0, 0, 0, false, "stamp"⟩ ∧
      (RunTests envTimeout sampleLib Globals.initial "failure_test" FailureTests).ts ≠
        FailureTests := by
  decide

/-- C5, amended.  `RunTests` first overwrites `nmachs`, `bf` and `hpn` of every
configuration with the globals `machines`, `bf` and `hpn`: the slice of the caller holds
the overwritten configurations afterwards, the configuration handed to `RunTest` for
position `i` is `ts[i]` with these three fields overwritten and its other fields as the
caller passed them, every subprocess is launched with the argument vector built from
that configuration, and its `-nmachs`, `-hpn` and `-bf` arguments are those of the
globals. -/
theorem RunTests_hands_overwritten (env : Env) (lib : StatsLib) (g : Globals)
    (name : String) (ts : List T) :
    (RunTests env lib g name ts).ts = ts.map (overwrite g) ∧
    (∀ i r t, Effect.callRunTest i r t ∈ (RunTests env lib g name ts).trace →
      ∃ t0, ts[i]? = some t0 ∧
        t = ⟨g.machines, g.hpn, g.bf, t0.rate, t0.rounds, t0.failures, t0.rFail, t0.fFail,
          t0.testConnect, t0.app⟩) ∧
    (∀ args, (Effect.start args ∈ (RunTests env lib g name ts).trace ∨
        Effect.startFailed args ∈ (RunTests env lib g name ts).trace) →
      ∃ t0 ∈ ts, args = RunTestArgs g (overwrite g t0) ∧
        args[1]? = some ("-nmachs=" ++ toString g.machines) ∧
        args[2]? = some ("-hpn=" ++ toString g.hpn) ∧
        args[4]? = some ("-bf=" ++ toString g.bf)) := by
  refine ⟨rfl, ?_, ?_⟩
  · intro i r t h
    rcases mem_RunTests env lib g name ts _ h with h1 | ⟨k, t0, hk, he, _, _⟩
    · simp [headEffects] at h1
    · obtain ⟨rfl, _, rfl⟩ := call_mem_configStep env lib g name k _ _ _ _ he
      exact ⟨t0, hk, rfl⟩
  · intro args h
    have hmem : ∃ e ∈ (RunTests env lib g name ts).trace,
        e = Effect.start args ∨ e = Effect.startFailed args := by
      rcases h with h | h
      · exact ⟨_, h, Or.inl rfl⟩
      · exact ⟨_, h, Or.inr rfl⟩
    obtain ⟨e, he, hee⟩ := hmem
    rcases mem_RunTests env lib g name ts _ he with h1 | ⟨k, t0, hk, hs, _, _⟩
    · rcases hee with rfl | rfl <;> simp [headEffects] at h1
    · have hargs : args = RunTestArgs g (overwrite g t0) := by
        apply start_mem_configStep env lib g name k
        rcases hee with rfl | rfl
        · exact Or.inl hs
        · exact Or.inr hs
      refine ⟨t0, List.getElem?_mem hk, hargs, ?_, ?_, ?_⟩ <;> rw [hargs] <;> rfl

/-! ## The retry policy -/

theorem call_mem_attempt {i r j r1 : Nat} {t t1 : T} {effs l : List Effect}
    (hp : ∀ e ∈ effs, e.isProcess = true)
    (h : Effect.callRunTest j r1 t1 ∈ Effect.callRunTest i r t :: effs ++ l) :
    (j = i ∧ r1 = r ∧ t1 = t) ∨ Effect.callRunTest j r1 t1 ∈ l := by
  simp only [List.cons_append, List.mem_cons, List.mem_append, Effect.callRunTest.injEq] at h
  rcases h with h | h | h
  · exact Or.inl h
  · have := hp _ h
    simp [Effect.isProcess] at this
  · exact Or.inr h

theorem return_mem_attempt {i r j r1 : Nat} {t : T} {rs : RunStats} {err : Option RunErr}
    {effs l : List Effect} (hp : ∀ e ∈ effs, e.isProcess = true)
    (h : Effect.returnRunTest j r1 rs err ∈ Effect.callRunTest i r t :: effs ++ l) :
    Effect.returnRunTest j r1 rs err ∈ l := by
  simp only [List.cons_append, List.mem_cons, List.mem_append] at h
  rcases h with h | h | h
  · simp at h
  · have := hp _ h
    simp [Effect.isProcess] at this
  · exact h

/-- The retry loop with stop-on-success, for any budget `left`: every call and return
is for position `i`, the iterations called are among `r, ..., r + left - 1`, and no
call is made for an iteration after one that returned without error. -/
theorem attemptLoop_policy (env : Env) (g : Globals) (i : Nat) (t : T) :
    ∀ (left r : Nat) (runs : List RunStats),
      (∀ j r1 t1, Effect.callRunTest j r1 t1 ∈
          (attemptLoop env g true i t left r runs).1.trace →
        j = i ∧ r ≤ r1 ∧ r1 < r + left) ∧
      (∀ j r1 rs err, Effect.returnRunTest j r1 rs err ∈
          (attemptLoop env g true i t left r runs).1.trace →
        j = i ∧ r ≤ r1) ∧
      (∀ r1 rs, Effect.returnRunTest i r1 rs none ∈
          (attemptLoop env g true i t left r runs).1.trace →
        ∀ r2 t2, Effect.callRunTest i r2 t2 ∈
          (attemptLoop env g true i t left r runs).1.trace → r2 ≤ r1) := by
  intro left
  induction left with
  | zero => intro r runs; simp [attemptLoop]
  | succ n ih =>
    intro r runs
    have hp := RunTest_effects_isProcess g t (env.attempt i r)
    rcases ho : (RunTest g t (env.attempt i r)).outcome with ⟨run, err⟩ | msg
    · cases err with
      | none =>
        have htr : (attemptLoop env g true i t (n + 1) r runs).1.trace =
            Effect.callRunTest i r t :: (RunTest g t (env.attempt i r)).effects ++
              [.returnRunTest i r run none, .cleanup (cleanupArgs g)] := by
          simp [attemptLoop, ho]
        rw [htr]
        refine ⟨?_, ?_, ?_⟩
        · intro j r1 t1 h
          rcases call_mem_attempt hp h with ⟨rfl, rfl, _⟩ | h
          · exact ⟨rfl, le_rfl, by omega⟩
          · simp at h
        · intro j r1 rs err h
          have := return_mem_attempt hp h
          simp only [List.mem_cons, Effect.returnRunTest.injEq, List.mem_singleton,
            List.not_mem_nil, or_false] at this
          simp at this
          exact ⟨this.1, by omega⟩
        · intro r1 rs h r2 t2 h2
          have := return_mem_attempt hp h
          simp only [List.mem_cons, Effect.returnRunTest.injEq, List.mem_singleton,
            List.not_mem_nil, or_false] at this
          simp at this
          rcases call_mem_attempt hp h2 with ⟨_, rfl, _⟩ | h2
          · omega
          · simp at h2
      | some e1 =>
        have htr : (attemptLoop env g true i t (n + 1) r runs).1.trace =
            Effect.callRunTest i r t :: (RunTest g t (env.attempt i r)).effects ++
              ([.returnRunTest i r run (some e1), .cleanup (cleanupArgs g)] ++
                (attemptLoop env g true i t n (r + 1) runs).1.trace) := by
          simp [attemptLoop, ho]
        obtain ⟨ih1, ih2, ih3⟩ := ih (r + 1) runs
        rw [htr]
        refine ⟨?_, ?_, ?_⟩
        · intro j r1 t1 h
          rcases call_mem_attempt hp h with ⟨rfl, rfl, _⟩ | h
          · exact ⟨rfl, le_rfl, by omega⟩
          · simp only [List.cons_append, List.nil_append, List.mem_cons, reduceCtorEq,
              false_or] at h
            have := ih1 j r1 t1 h
            omega
        · intro j r1 rs err h
          have h := return_mem_attempt hp h
          simp only [List.cons_append, List.nil_append, List.mem_cons,
            Effect.returnRunTest.injEq, reduceCtorEq, false_or] at h
          rcases h with h | h
          · exact ⟨h.1, by omega⟩
          · have := ih2 j r1 rs err h
            omega
        · intro r1 rs h r2 t2 h2
          have h := return_mem_attempt hp h
          simp only [List.cons_append, List.nil_append, List.mem_cons,
            Effect.returnRunTest.injEq, reduceCtorEq, false_or, and_false] at h
          have hr1 := (ih2 i r1 rs none h).2
          rcases call_mem_attempt hp h2 with ⟨_, rfl, _⟩ | h2
          · omega
          · simp only [List.cons_append, List.nil_append, List.mem_cons, reduceCtorEq,
              false_or] at h2
            exact ih3 r1 rs h r2 t2 h2
    · have htr : (attemptLoop env g true i t (n + 1) r runs).1.trace =
          Effect.callRunTest i r t :: (RunTest g t (env.attempt i r)).effects ++ [] := by
        simp [attemptLoop, ho]
      rw [htr]
      refine ⟨?_, ?_, ?_⟩
      · intro j r1 t1 h
        rcases call_mem_attempt hp h with ⟨rfl, rfl, _⟩ | h
        · exact ⟨rfl, le_rfl, by omega⟩
        · simp at h
      · intro j r1 rs err h
        have := return_mem_attempt hp h
        simp at this
      · intro r1 rs h
        have := return_mem_attempt hp h
        simp at this

theorem skeleton_counts : ∀ (n i0 : Nat),
    ((List.range' i0 n).flatMap fun i => [Mark.attempt i 0, Mark.cleanup]).countP
        Mark.isAttempt = n ∧
      ((List.range' i0 n).flatMap fun i => [Mark.attempt i 0, Mark.cleanup]).countP
        Mark.isCleanup = n ∧
      ∀ i, ((List.range' i0 n).flatMap fun i => [Mark.attempt i 0, Mark.cleanup]).countP
        (Mark.isAttemptAt i) = if i0 ≤ i ∧ i < i0 + n then 1 else 0 := by
  intro n
  induction n with
  | zero =>
    intro i0
    refine ⟨by simp, by simp, ?_⟩
    intro i
    have : ¬ (i0 ≤ i ∧ i < i0) := by omega
    simp [this]
  | succ n ih =>
    intro i0
    obtain ⟨h1, h2, h3⟩ := ih (i0 + 1)
    simp only [List.range'_succ, List.flatMap_cons, List.countP_append, h1, h2, h3]
    refine ⟨?_, ?_, ?_⟩
    · simp [List.countP_cons, Mark.isAttempt]; omega
    · simp [List.countP_cons, Mark.isCleanup]; omega
    · intro i
      simp only [List.countP_cons, List.countP_nil, Mark.isAttemptAt, decide_eq_true_eq]
      by_cases hi : i0 = i
      · subst hi; simp
      · have : ¬ (i0 + 1 ≤ i ∧ i < i0 + 1 + n) ↔ ¬ (i0 ≤ i ∧ i < i0 + (n + 1)) := by omega
        by_cases hc : i0 + 1 ≤ i ∧ i < i0 + 1 + n
        · have hc2 : i0 ≤ i ∧ i < i0 + (n + 1) := by omega
          simp [hi, hc, hc2]
        · have hc2 : ¬ (i0 ≤ i ∧ i < i0 + (n + 1)) := by omega
          simp [hi, hc, hc2]

/-- C10.  When no fatal error ends the run, the attempts and clean-ups of `RunTests` are,
for each position of the matrix in turn, one attempt (iteration 0) followed by one
clean-up, whether the attempt succeeded or not.  So no configuration gets more than
`nTimes = 1` attempts, there are as many clean-ups as attempts, every clean-up is the
command `deploy2deter -kill=true`, and no attempt follows a valid one for the same
configuration. -/
theorem RunTests_attempts_and_cleanups (env : Env) (lib : StatsLib) (g : Globals)
    (name : String) (ts : List T)
    (hnf : ∀ msg, (RunTests env lib g name ts).status ≠ .fatal msg) :
    skeleton (RunTests env lib g name ts).trace =
        ((List.range ts.length).flatMap fun i => [Mark.attempt i 0, Mark.cleanup]) ∧
    (∀ i, (skeleton (RunTests env lib g name ts).trace).countP (Mark.isAttemptAt i) ≤ nTimes) ∧
    (skeleton (RunTests env lib g name ts).trace).countP Mark.isCleanup =
      (skeleton (RunTests env lib g name ts).trace).countP Mark.isAttempt ∧
    (∀ args, Effect.cleanup args ∈ (RunTests env lib g name ts).trace →
      args = ["./deploy2deter", "-kill=true", "-nmachs=" ++ toString g.machines, g.user]) ∧
    (∀ i r rs, Effect.returnRunTest i r rs none ∈ (RunTests env lib g name ts).trace →
      ∀ r1 t1, r < r1 →
        Effect.callRunTest i r1 t1 ∉ (RunTests env lib g name ts).trace) := by
  have hsk : skeleton (RunTests env lib g name ts).trace =
      ((List.range ts.length).flatMap fun i => [Mark.attempt i 0, Mark.cleanup]) := by
    rcases RunTests_cases env lib g name ts with ⟨_, hA, h0⟩ | ⟨_, hB, hS⟩
    · rw [h0 hnf]
      rw [h0 hnf] at hA
      rcases hA with hA | hA | hA <;> rw [hA] <;> simp [skeleton, Effect.mark]
    · have hd : (configLoop env lib g name nTimes stopOnSuccess 0
          (ts.map (overwrite g))).status = .done := by
        cases hst : (configLoop env lib g name nTimes stopOnSuccess 0
            (ts.map (overwrite g))).status with
        | done => rfl
        | fatal m => exact absurd (hS.trans hst) (hnf m)
        | panicked m => exact absurd hst (configLoop_not_panicked env lib g name _ 0 m)
      have := skeleton_configLoop_done env lib g name _ 0 hd
      rw [hB]
      simp only [skeleton, List.filterMap_append] at this ⊢
      rw [this, List.range_eq_range']
      simp [headEffects, Effect.mark]
  refine ⟨hsk, ?_, ?_, ?_, ?_⟩
  · intro i
    rw [hsk, List.range_eq_range', (skeleton_counts ts.length 0).2.2 i]
    unfold nTimes
    split <;> omega
  · rw [hsk, List.range_eq_range', (skeleton_counts ts.length 0).1,
      (skeleton_counts ts.length 0).2.1]
  · intro args h
    rcases mem_RunTests env lib g name ts _ h with h1 | ⟨k, t, _, he, _, _⟩
    · simp [headEffects] at h1
    · exact cleanup_mem_configStep env lib g name k _ args he
  · intro i r rs _ r1 t1 hr h
    rcases mem_RunTests env lib g name ts _ h with h1 | ⟨k, t, _, he, _, _⟩
    · simp [headEffects] at h1
    · obtain ⟨_, h0, _⟩ := call_mem_configStep env lib g name k _ _ _ _ he
      omega

/-- C10 on `HostsTest` when the attempt for position 0 succeeds and the attempt for
position 1 times out: attempt, clean-up, attempt, clean-up. -/
theorem RunTests_attempts_and_cleanups_witness :
    (RunTests envFirstSucceeds sampleLib Globals.initial "sign_test" HostsTest).status =
        .done ∧
      skeleton
          (RunTests envFirstSucceeds sampleLib Globals.initial "sign_test" HostsTest).trace =
        [.attempt 0 0, .cleanup, .attempt 1 0, .cleanup] := by
  have hd : (RunTests envFirstSucceeds sampleLib Globals.initial "sign_test"
      HostsTest).status = .done := by decide
  refine ⟨hd, ?_⟩
  exact (RunTests_attempts_and_cleanups envFirstSucceeds sampleLib Globals.initial
    "sign_test" HostsTest (fun msg h => by rw [hd] at h; exact absurd h (by simp))).1

end Deter
